import Mathlib

set_option maxRecDepth 8000

/-!
Verification development for the social-services Twitter scraping engine:
a shallow embedding of `app/scraper/twitter_scraper.py`,
`app/scraper/cache_manager.py` and `app/core/config.py`, together with
theorems settling the specification claims about them.
-/

/-- JSON-like values: the universe of Python values that flow through
`json.dumps` / `json.loads` in the scraper.  Floating-point numbers are
not part of this universe (they are not needed by any claim about the
serialization layer). -/
inductive J : Type where
  | null : J
  | bool : Bool → J
  | int : Int → J
  | str : String → J
  | arr : List J → J
  | obj : List (String × J) → J
  deriving Repr, Inhabited

/-! Boolean equality on json values, used to obtain decidable equality. -/

mutual
def jBeq : J → J → Bool
  | .null, .null => true
  | .bool a, .bool b => a == b
  | .int a, .int b => a == b
  | .str a, .str b => a == b
  | .arr a, .arr b => jBeqArr a b
  | .obj a, .obj b => jBeqObj a b
  | _, _ => false

def jBeqArr : List J → List J → Bool
  | [], [] => true
  | a :: as_, b :: bs => jBeq a b && jBeqArr as_ bs
  | _, _ => false

def jBeqObj : List (String × J) → List (String × J) → Bool
  | [], [] => true
  | (ka, va) :: as_, (kb, vb) :: bs => ka == kb && jBeq va vb && jBeqObj as_ bs
  | _, _ => false
end

mutual
theorem jBeq_refl : ∀ v : J, jBeq v v = true
  | .null => rfl
  | .bool b => by simp [jBeq]
  | .int n => by simp [jBeq]
  | .str s => by simp [jBeq]
  | .arr l => by rw [jBeq]; exact jBeqArr_refl l
  | .obj kvs => by rw [jBeq]; exact jBeqObj_refl kvs

theorem jBeqArr_refl : ∀ l : List J, jBeqArr l l = true
  | [] => rfl
  | v :: vs => by rw [jBeqArr, jBeq_refl v, jBeqArr_refl vs]; rfl

theorem jBeqObj_refl : ∀ l : List (String × J), jBeqObj l l = true
  | [] => rfl
  | (k, v) :: kvs => by rw [jBeqObj, jBeq_refl v, jBeqObj_refl kvs]; simp
end

mutual
theorem jBeq_eq : ∀ a b : J, jBeq a b = true → a = b
  | .null, .null, _ => rfl
  | .bool x, .bool y, h => by simpa [jBeq] using h
  | .int x, .int y, h => by simpa [jBeq] using h
  | .str x, .str y, h => by simpa [jBeq] using h
  | .arr x, .arr y, h => by rw [jBeq] at h; rw [jBeqArr_eq x y h]
  | .obj x, .obj y, h => by rw [jBeq] at h; rw [jBeqObj_eq x y h]
  | .null, .bool _, h | .null, .int _, h | .null, .str _, h | .null, .arr _, h
  | .null, .obj _, h | .bool _, .null, h | .bool _, .int _, h | .bool _, .str _, h
  | .bool _, .arr _, h | .bool _, .obj _, h | .int _, .null, h | .int _, .bool _, h
  | .int _, .str _, h | .int _, .arr _, h | .int _, .obj _, h | .str _, .null, h
  | .str _, .bool _, h | .str _, .int _, h | .str _, .arr _, h | .str _, .obj _, h
  | .arr _, .null, h | .arr _, .bool _, h | .arr _, .int _, h | .arr _, .str _, h
  | .arr _, .obj _, h | .obj _, .null, h | .obj _, .bool _, h | .obj _, .int _, h
  | .obj _, .str _, h | .obj _, .arr _, h => by simp [jBeq] at h

theorem jBeqArr_eq : ∀ a b : List J, jBeqArr a b = true → a = b
  | [], [], _ => rfl
  | [], _ :: _, h => by simp [jBeqArr] at h
  | _ :: _, [], h => by simp [jBeqArr] at h
  | x :: xs, y :: ys, h => by
      rw [jBeqArr, Bool.and_eq_true] at h
      rw [jBeq_eq x y h.1, jBeqArr_eq xs ys h.2]

theorem jBeqObj_eq : ∀ a b : List (String × J), jBeqObj a b = true → a = b
  | [], [], _ => rfl
  | [], _ :: _, h => by simp [jBeqObj] at h
  | _ :: _, [], h => by simp [jBeqObj] at h
  | (kx, x) :: xs, (ky, y) :: ys, h => by
      rw [jBeqObj, Bool.and_eq_true, Bool.and_eq_true] at h
      have hk : kx = ky := by simpa using h.1.1
      rw [hk, jBeq_eq x y h.1.2, jBeqObj_eq xs ys h.2]
end

instance : DecidableEq J := fun a b =>
  if h : jBeq a b = true then isTrue (jBeq_eq a b h)
  else isFalse (fun he => h (he ▸ jBeq_refl a))

/-! ## Python string comparison

Python compares `str` values lexicographically by Unicode code point;
this is the order used by `sorted` and by `json.dumps(sort_keys=True)`. -/

theorem charEqOfToNat {a b : Char} (h : a.toNat = b.toNat) : a = b := by
  rcases a with ⟨⟨va⟩, ha⟩
  rcases b with ⟨⟨vb⟩, hb⟩
  simp only [Char.toNat, UInt32.toNat] at h
  congr 2
  exact BitVec.eq_of_toNat_eq h

/-- Code-point lexicographic `<=` on character lists (Python string order). -/
def strLe : List Char → List Char → Bool
  | [], _ => true
  | _ :: _, [] => false
  | a :: as_, b :: bs =>
      if a.toNat < b.toNat then true
      else if b.toNat < a.toNat then false
      else strLe as_ bs

theorem strLe_total : ∀ a b, strLe a b = true ∨ strLe b a = true
  | [], _ => .inl rfl
  | _ :: _, [] => .inr rfl
  | a :: as_, b :: bs => by
      by_cases hab : a.toNat < b.toNat
      · exact .inl (by simp [strLe, hab])
      · by_cases hba : b.toNat < a.toNat
        · exact .inr (by simp [strLe, hba])
        · rcases strLe_total as_ bs with h | h
          · exact .inl (by simp [strLe, hab, hba, h])
          · exact .inr (by simp [strLe, hab, hba, h])

theorem strLe_antisymm : ∀ a b, strLe a b = true → strLe b a = true → a = b
  | [], [], _, _ => rfl
  | [], _ :: _, _, h => by simp [strLe] at h
  | _ :: _, [], h, _ => by simp [strLe] at h
  | a :: as_, b :: bs, h₁, h₂ => by
      by_cases hab : a.toNat < b.toNat
      · simp [strLe, hab, Nat.lt_asymm hab] at h₂
      · by_cases hba : b.toNat < a.toNat
        · simp [strLe, hab, hba] at h₁
        · have : a = b := charEqOfToNat (by omega)
          subst this
          simp only [strLe, hab, if_neg, if_false] at h₁ h₂
          rw [strLe_antisymm as_ bs (by simpa using h₁) (by simpa using h₂)]

theorem strLe_trans : ∀ a b c, strLe a b = true → strLe b c = true → strLe a c = true
  | [], _, _, _, _ => rfl
  | _ :: _, [], _, h, _ => by simp [strLe] at h
  | _ :: _, _ :: _, [], _, h => by simp [strLe] at h
  | a :: as_, b :: bs, c :: cs, h₁, h₂ => by
      by_cases hab : a.toNat < b.toNat <;> by_cases hbc : b.toNat < c.toNat
      · simp [strLe, Nat.lt_trans hab hbc]
      · by_cases hcb : c.toNat < b.toNat
        · simp [strLe, hbc, hcb] at h₂
        · have : b = c := charEqOfToNat (by omega)
          subst this
          simp [strLe, hab]
      · by_cases hba : b.toNat < a.toNat
        · simp [strLe, hab, hba] at h₁
        · have : a = b := charEqOfToNat (by omega)
          subst this
          simp [strLe, hbc]
      · by_cases hba : b.toNat < a.toNat
        · simp [strLe, hab, hba] at h₁
        · by_cases hcb : c.toNat < b.toNat
          · simp [strLe, hbc, hcb] at h₂
          · have hab' : a = b := charEqOfToNat (by omega)
            have hbc' : b = c := charEqOfToNat (by omega)
            subst hab'; subst hbc'
            have h₁' : strLe as_ bs = true := by simpa [strLe, hab] using h₁
            have h₂' : strLe bs cs = true := by simpa [strLe, hab] using h₂
            simp [strLe, hab, strLe_trans as_ bs cs h₁' h₂']

/-- Ordering of object entries used by `json.dumps(..., sort_keys=True)`
and by Python `sorted` on dict items: compare the keys by code point. -/
def keyLe (a b : String × J) : Prop := strLe a.1.toList b.1.toList = true

instance : DecidableRel keyLe := fun a b =>
  inferInstanceAs (Decidable (strLe a.1.toList b.1.toList = true))

instance : IsTotal (String × J) keyLe :=
  ⟨fun a b => strLe_total a.1.toList b.1.toList⟩

instance : IsTrans (String × J) keyLe :=
  ⟨fun a b c => strLe_trans a.1.toList b.1.toList c.1.toList⟩

/-- Strict version of `keyLe` (entries related by `keyLe` with distinct
keys); antisymmetric, which `keyLe` alone is not on pairs. -/
def keyLt (a b : String × J) : Prop := keyLe a b ∧ a.1 ≠ b.1

instance : IsAntisymm (String × J) keyLt :=
  ⟨fun a b h₁ h₂ => absurd
    (congrArg String.mk (strLe_antisymm a.1.toList b.1.toList h₁.1 h₂.1))
    (by simpa using h₁.2)⟩

/-! ## json.dumps -/

/-- Hex digit character (lowercase), as produced by Python for md5 hex
digests and for json `\uXXXX` escapes. -/
def hexDigitCh (n : Nat) : Char :=
  if n < 10 then Char.ofNat (48 + n) else Char.ofNat (87 + n)

/-- Four-digit lowercase hex rendering of a code point below 0x10000. -/
def hex4 (n : Nat) : List Char :=
  [hexDigitCh (n / 4096 % 16), hexDigitCh (n / 256 % 16),
   hexDigitCh (n / 16 % 16), hexDigitCh (n % 16)]

/-- A json `\uXXXX` escape sequence. -/
def uEscape (n : Nat) : List Char := '\\' :: 'u' :: hex4 n

/-- Escaping of one character by `json.dumps` with its default
`ensure_ascii=True`: short escapes for the quote, the backslash and the
usual control characters, any other character outside the printable
ASCII range as `\uXXXX` (a surrogate pair above 0xFFFF). -/
def encodeChar (c : Char) : List Char :=
  let n := c.toNat
  if c = '"' then ['\\', '"']
  else if c = '\\' then ['\\', '\\']
  else if n = 8 then ['\\', 'b']
  else if n = 12 then ['\\', 'f']
  else if n = 10 then ['\\', 'n']
  else if n = 13 then ['\\', 'r']
  else if n = 9 then ['\\', 't']
  else if 32 ≤ n ∧ n ≤ 126 then [c]
  else if n < 65536 then uEscape n
  else
    uEscape (55296 + (n - 65536) / 1024) ++ uEscape (56320 + (n - 65536) % 1024)

/-- The json rendering of a Python string: quotes around the escaped
character sequence. -/
def encodeStrChars (s : String) : List Char :=
  '"' :: (s.toList.map encodeChar).flatten ++ ['"']

/-- A decimal digit character. -/
def digitChar (d : Nat) : Char := Char.ofNat (48 + d)

/-- Decimal digits of a natural number, most significant first (the
fuel argument only bounds the recursion; any fuel above the number
itself is enough). -/
def natCharsAux : Nat → Nat → List Char
  | 0, _ => []
  | fuel + 1, n =>
      if n < 10 then [digitChar n]
      else natCharsAux fuel (n / 10) ++ [digitChar (n % 10)]

def natChars (n : Nat) : List Char := natCharsAux (n + 1) n

/-- Python `str` of an integer: optional minus sign and decimal
digits. -/
def intChars (n : Int) : List Char :=
  if n < 0 then '-' :: natChars n.natAbs else natChars n.natAbs

mutual
/-- Recursively sort every object of a json value by key.  Serializing
`sortJ v` (without further sorting) is exactly what
`json.dumps(v, sort_keys=True)` produces, since `sort_keys` sorts each
dict at every nesting level. -/
def sortJ : J → J
  | .null => .null
  | .bool b => .bool b
  | .int n => .int n
  | .str s => .str s
  | .arr l => .arr (sortJArr l)
  | .obj kvs => .obj (List.insertionSort keyLe (sortJObj kvs))

def sortJArr : List J → List J
  | [] => []
  | v :: vs => sortJ v :: sortJArr vs

def sortJObj : List (String × J) → List (String × J)
  | [] => []
  | (k, v) :: kvs => (k, sortJ v) :: sortJObj kvs
end

mutual
/-- `json.dumps` with the default separators `", "` and `": "` and
`ensure_ascii=True` (no key sorting; compose with `sortJ` for
`sort_keys=True`), as a character list. -/
def dumpsChars : J → List Char
  | .null => "null".toList
  | .bool true => "true".toList
  | .bool false => "false".toList
  | .int n => intChars n
  | .str s => encodeStrChars s
  | .arr l => '[' :: dumpsArrChars l ++ [']']
  | .obj kvs => '{' :: dumpsObjChars kvs ++ ['}']

def dumpsArrChars : List J → List Char
  | [] => []
  | [v] => dumpsChars v
  | v :: w :: vs => dumpsChars v ++ ',' :: ' ' :: dumpsArrChars (w :: vs)

def dumpsObjChars : List (String × J) → List Char
  | [] => []
  | [(k, v)] => encodeStrChars k ++ ':' :: ' ' :: dumpsChars v
  | (k, v) :: kv :: kvs =>
      encodeStrChars k ++ ':' :: ' ' :: dumpsChars v ++ ',' :: ' ' ::
        dumpsObjChars (kv :: kvs)
end

/-- `json.dumps` as a string. -/
def dumps (v : J) : String := String.mk (dumpsChars v)

example : dumps (sortJ (.obj [("query", .str "alice"), ("limit", .int 20)]))
    = "\x7b\"limit\": 20, \"query\": \"alice\"\x7d" := by rfl

/-! ## md5 (`hashlib.md5(...).hexdigest()`) -/

/-- Truncation to a 32-bit machine word. -/
def w32 (n : Nat) : Nat := n % 4294967296

/-- 32-bit left rotation (for `x < 2^32`). -/
def rotl32 (x s : Nat) : Nat := w32 (x * 2 ^ s + x / 2 ^ (32 - s))

/-- 32-bit complement (for `x < 2^32`). -/
def not32 (x : Nat) : Nat := 4294967295 - x

/-- Little-endian byte rendering of `n` on `k` bytes. -/
def toLE : Nat → Nat → List Nat
  | 0, _ => []
  | k + 1, n => n % 256 :: toLE k (n / 256)

/-- md5 round constants `K[0..63]`. -/
def md5K : List Nat :=
  [0xd76aa478, 0xe8c7b756, 0x242070db, 0xc1bdceee,
   0xf57c0faf, 0x4787c62a, 0xa8304613, 0xfd469501,
   0x698098d8, 0x8b44f7af, 0xffff5bb1, 0x895cd7be,
   0x6b901122, 0xfd987193, 0xa679438e, 0x49b40821,
   0xf61e2562, 0xc040b340, 0x265e5a51, 0xe9b6c7aa,
   0xd62f105d, 0x02441453, 0xd8a1e681, 0xe7d3fbc8,
   0x21e1cde6, 0xc33707d6, 0xf4d50d87, 0x455a14ed,
   0xa9e3e905, 0xfcefa3f8, 0x676f02d9, 0x8d2a4c8a,
   0xfffa3942, 0x8771f681, 0x6d9d6122, 0xfde5380c,
   0xa4beea44, 0x4bdecfa9, 0xf6bb4b60, 0xbebfbc70,
   0x289b7ec6, 0xeaa127fa, 0xd4ef3085, 0x04881d05,
   0xd9d4d039, 0xe6db99e5, 0x1fa27cf8, 0xc4ac5665,
   0xf4292244, 0x432aff97, 0xab9423a7, 0xfc93a039,
   0x655b59c3, 0x8f0ccc92, 0xffeff47d, 0x85845dd1,
   0x6fa87e4f, 0xfe2ce6e0, 0xa3014314, 0x4e0811a1,
   0xf7537e82, 0xbd3af235, 0x2ad7d2bb, 0xeb86d391]

/-- md5 per-round shift amounts `S[0..63]`. -/
def md5S : List Nat :=
  [7, 12, 17, 22, 7, 12, 17, 22, 7, 12, 17, 22, 7, 12, 17, 22,
   5, 9, 14, 20, 5, 9, 14, 20, 5, 9, 14, 20, 5, 9, 14, 20,
   4, 11, 16, 23, 4, 11, 16, 23, 4, 11, 16, 23, 4, 11, 16, 23,
   6, 10, 15, 21, 6, 10, 15, 21, 6, 10, 15, 21, 6, 10, 15, 21]

/-- The md5 nonlinear functions and message-word schedule for round `i`. -/
def md5FG (i : Nat) (b c d : Nat) : Nat × Nat :=
  if i < 16 then (Nat.lor (Nat.land b c) (Nat.land (not32 b) d), i)
  else if i < 32 then (Nat.lor (Nat.land d b) (Nat.land (not32 d) c), (5 * i + 1) % 16)
  else if i < 48 then (Nat.xor b (Nat.xor c d), (3 * i + 5) % 16)
  else (Nat.xor c (Nat.lor b (not32 d)), (7 * i) % 16)

/-- Message word `g` of a 64-byte block, little-endian. -/
def blockWord (block : List Nat) (g : Nat) : Nat :=
  block.getD (4 * g) 0 + 256 * block.getD (4 * g + 1) 0
    + 65536 * block.getD (4 * g + 2) 0 + 16777216 * block.getD (4 * g + 3) 0

/-- One md5 round. -/
def md5Round (block : List Nat) (st : Nat × Nat × Nat × Nat) (i : Nat) :
    Nat × Nat × Nat × Nat :=
  let (a, b, c, d) := st
  let (f, g) := md5FG i b c d
  let f2 := w32 (f + a + md5K.getD i 0 + blockWord block g)
  (d, w32 (b + rotl32 f2 (md5S.getD i 0)), b, c)

/-- Process one 64-byte block. -/
def md5Block (st : Nat × Nat × Nat × Nat) (block : List Nat) :
    Nat × Nat × Nat × Nat :=
  let (a0, b0, c0, d0) := st
  let (a, b, c, d) := (List.range 64).foldl (md5Round block) (a0, b0, c0, d0)
  (w32 (a0 + a), w32 (b0 + b), w32 (c0 + c), w32 (d0 + d))

/-- md5 padding: a 0x80 byte, zeros up to 56 mod 64, then the bit length
on 8 little-endian bytes. -/
def md5Pad (msg : List Nat) : List Nat :=
  msg ++ 0x80 :: List.replicate ((119 - msg.length % 64) % 64) 0
    ++ toLE 8 (8 * msg.length)

/-- Process a byte list 64-byte block at a time (the fuel argument only
bounds the recursion; any fuel at least the list length is enough). -/
def md5Blocks : Nat → (Nat × Nat × Nat × Nat) → List Nat → Nat × Nat × Nat × Nat
  | 0, st, _ => st
  | _ + 1, st, [] => st
  | fuel + 1, st, x :: xs =>
      md5Blocks fuel (md5Block st ((x :: xs).take 64)) ((x :: xs).drop 64)

/-- A byte as two lowercase hex characters. -/
def byteHex (b : Nat) : List Char := [hexDigitCh (b / 16 % 16), hexDigitCh (b % 16)]

/-- `hashlib.md5(msg).hexdigest()` on a byte list. -/
def md5Hex (msg : List Nat) : String :=
  let padded := md5Pad msg
  let (a, b, c, d) :=
    md5Blocks padded.length (0x67452301, 0xefcdab89, 0x98badcfe, 0x10325476) padded
  String.mk (((toLE 4 a ++ toLE 4 b ++ toLE 4 c ++ toLE 4 d).map byteHex).flatten)

/-- UTF-8 bytes of one character. -/
def utf8Bytes (c : Char) : List Nat :=
  let n := c.toNat
  if n < 128 then [n]
  else if n < 2048 then [192 + n / 64, 128 + n % 64]
  else if n < 65536 then [224 + n / 4096, 128 + n / 64 % 64, 128 + n % 64]
  else [240 + n / 262144, 128 + n / 4096 % 64, 128 + n / 64 % 64, 128 + n % 64]

/-- `s.encode()`: UTF-8 bytes of a string. -/
def strBytes (s : String) : List Nat := (s.toList.map utf8Bytes).flatten

/-- md5 hex digest of a string, as Python's
`hashlib.md5(s.encode()).hexdigest()`. -/
def md5HexStr (s : String) : String := md5Hex (strBytes s)

example : md5HexStr "" = "d41d8cd98f00b204e9800998ecf8427e" := by rfl

example : md5HexStr "abc" = "900150983cd24fb0d6963f7d28e17f72" := by rfl

/-! ## TwitterScraper._generate_cache_key -/

/-- `TwitterScraper._generate_cache_key` (`app/scraper/twitter_scraper.py`):

    param_string = json.dumps(params, sort_keys=True)
    param_hash = hashlib.md5(param_string.encode()).hexdigest()
    return f"cache:{operation}:{param_hash}"

The parameter dict is embedded as its association list in insertion
order; `json.dumps(..., sort_keys=True)` is `dumps` composed with
`sortJ`. -/
def generateCacheKey (operation : String) (params : List (String × J)) : String :=
  "cache:" ++ operation ++ ":" ++ md5HexStr (dumps (sortJ (.obj params)))

/-- A parameter mapping has pairwise-distinct keys (always true of a
Python dict). -/
def DistinctKeys (params : List (String × J)) : Prop :=
  params.Pairwise (fun a b => a.1 ≠ b.1)

instance : ∀ params, Decidable (DistinctKeys params) := fun params =>
  inferInstanceAs (Decidable (params.Pairwise _))

theorem sortJObj_eq_map (l : List (String × J)) :
    sortJObj l = l.map (fun kv => (kv.1, sortJ kv.2)) := by
  induction l with
  | nil => rfl
  | cons kv tl ih => rcases kv with ⟨k, v⟩; rw [sortJObj, ih]; rfl

theorem insertionSort_eq_of_perm {p q : List (String × J)}
    (hperm : p.Perm q) (hkeys : DistinctKeys p) :
    List.insertionSort keyLe p = List.insertionSort keyLe q := by
  have hsymm : Symmetric (fun a b : String × J => a.1 ≠ b.1) :=
    fun a b h => Ne.symm h
  have hp : (List.insertionSort keyLe p).Perm (List.insertionSort keyLe q) :=
    (List.perm_insertionSort keyLe p).trans
      (hperm.trans (List.perm_insertionSort keyLe q).symm)
  have hkp : (List.insertionSort keyLe p).Pairwise (fun a b => a.1 ≠ b.1) :=
    ((List.perm_insertionSort keyLe p).pairwise_iff (fun h => hsymm h)).mpr hkeys
  have hkq : (List.insertionSort keyLe q).Pairwise (fun a b => a.1 ≠ b.1) :=
    (hp.pairwise_iff (fun h => hsymm h)).mp hkp
  have hsp : (List.insertionSort keyLe p).Sorted keyLt :=
    ((List.sorted_insertionSort keyLe p).and hkp).imp (fun h => ⟨h.1, h.2⟩)
  have hsq : (List.insertionSort keyLe q).Sorted keyLt :=
    ((List.sorted_insertionSort keyLe q).and hkq).imp (fun h => ⟨h.1, h.2⟩)
  exact List.eq_of_perm_of_sorted hp hsp hsq

/-- **C1.** The cache key is invariant under permutation of the
parameter mapping, and has the form
`cache:<operation>:<md5 hex digest of the key-sorted parameter json>`. -/
theorem cacheKey_perm_invariant_and_format
    (op : String) (p₁ p₂ : List (String × J))
    (hperm : p₁.Perm p₂) (hkeys : DistinctKeys p₁) :
    generateCacheKey op p₁ = generateCacheKey op p₂ ∧
    generateCacheKey op p₁ =
      "cache:" ++ op ++ ":" ++ md5HexStr (dumps (sortJ (.obj p₁))) := by
  refine ⟨?_, rfl⟩
  have hmapped : (sortJObj p₁).Perm (sortJObj p₂) := by
    rw [sortJObj_eq_map, sortJObj_eq_map]
    exact hperm.map _
  have hkeys' : DistinctKeys (sortJObj p₁) := by
    rw [sortJObj_eq_map]
    exact (List.pairwise_map).mpr hkeys
  unfold generateCacheKey
  rw [sortJ, sortJ, insertionSort_eq_of_perm hmapped hkeys']

/-- Witness for C1 at concrete inputs: the two parameter orders of
`search_user("alice", limit=5)`. -/
theorem cacheKey_perm_invariant_and_format_witness :
    ([("query", J.str "alice"), ("limit", J.int 5)]).Perm
        [("limit", J.int 5), ("query", J.str "alice")] ∧
    DistinctKeys [("query", J.str "alice"), ("limit", J.int 5)] ∧
    generateCacheKey "search_user" [("query", J.str "alice"), ("limit", J.int 5)]
      = generateCacheKey "search_user" [("limit", J.int 5), ("query", J.str "alice")] :=
  ⟨List.Perm.swap _ _ _, by decide,
   (cacheKey_perm_invariant_and_format "search_user"
      [("query", J.str "alice"), ("limit", J.int 5)]
      [("limit", J.int 5), ("query", J.str "alice")]
      (List.Perm.swap _ _ _) (by decide)).1⟩

/-! ## Timeline scroll budget (`app/core/config.py`, `timeline_tweet`) -/

/-- `Settings.min_tweet_count` (config.py). -/
def minTweetCount : Nat := 20

/-- `Settings.max_tweet_count` (config.py). -/
def maxTweetCount : Nat := 100

/-- Python `int(round(tweet_count / 20, 0))` for a nonnegative integer
`tweet_count`: the quotient rounded to the nearest integer with ties to
even.  (The float quotient `tweet_count / 20` is exactly representable
at every tie `tweet_count = 20*q + 10`, so banker's rounding applies
exactly; away from ties the float error is far too small to change the
nearest integer.) -/
def roundDiv20 (tc : Nat) : Nat :=
  if tc % 20 < 10 then tc / 20
  else if 10 < tc % 20 then tc / 20 + 1
  else if tc / 20 % 2 = 0 then tc / 20 else tc / 20 + 1

/-- `_max_scrolls` in `TwitterScraper.timeline_tweet`:
`int(round(tweet_count / 20, 0)) if min_count <= tweet_count <= max_count else 1`. -/
def maxScrolls (tweetCount : Nat) : Nat :=
  if minTweetCount ≤ tweetCount ∧ tweetCount ≤ maxTweetCount
  then roundDiv20 tweetCount else 1

/-- Rounding half to even on the rationals (the mathematical content of
Python's `round`), used as the spec-side description of `roundDiv20`. -/
def roundHalfEvenQ (x : ℚ) : ℤ :=
  if x - ⌊x⌋ < 1 / 2 then ⌊x⌋
  else if 1 / 2 < x - ⌊x⌋ then ⌊x⌋ + 1
  else if ⌊x⌋ % 2 = 0 then ⌊x⌋ else ⌊x⌋ + 1

theorem floor_div20 (n r : Nat) (hr : r < 20) :
    ⌊((20 * n + r : ℕ) : ℚ) / 20⌋ = (n : ℤ) := by
  have hx : ((20 * n + r : ℕ) : ℚ) / 20 = (n : ℕ) + (r : ℚ) / 20 := by
    push_cast; ring
  rw [hx, Int.floor_nat_add]
  have h0 : ⌊(r : ℚ) / 20⌋ = 0 := by
    rw [Int.floor_eq_zero_iff]
    constructor
    · positivity
    · rw [div_lt_one (by norm_num : (0 : ℚ) < 20)]
      exact_mod_cast hr
  rw [h0, add_zero]

theorem ceil_div20 (tc : Nat) : ⌈(tc : ℚ) / 20⌉ = (((tc + 19) / 20 : ℕ) : ℤ) := by
  obtain ⟨n, r, rfl, hr⟩ : ∃ n r, tc = 20 * n + r ∧ r < 20 :=
    ⟨tc / 20, tc % 20, by omega, by omega⟩
  have hx : ((20 * n + r : ℕ) : ℚ) / 20 = (r : ℚ) / 20 + ((n : ℤ) : ℚ) := by
    push_cast; ring
  rw [hx, Int.ceil_add_int]
  rcases Nat.eq_zero_or_pos r with h0 | hpos
  · subst h0
    have : ((0 : ℕ) : ℚ) / 20 = 0 := by norm_num
    rw [this]
    have : (20 * n + 0 + 19) / 20 = n := by omega
    rw [this]
    simp
  · have hc : ⌈(r : ℚ) / 20⌉ = 1 := by
      rw [Int.ceil_eq_iff]
      constructor
      · push_cast
        have : (0 : ℚ) < (r : ℚ) := by exact_mod_cast hpos
        have h20 : (0 : ℚ) < 20 := by norm_num
        calc ((1 : ℤ) : ℚ) - 1 = 0 := by norm_num
        _ < (r : ℚ) / 20 := by positivity
      · have h20 : ((r : ℕ) : ℚ) / 20 ≤ 1 := by
          rw [div_le_one (by norm_num : (0 : ℚ) < 20)]
          exact_mod_cast Nat.cast_le.mpr (by omega : r ≤ 20)
        push_cast at h20 ⊢
        linarith
    rw [hc]
    have : (20 * n + r + 19) / 20 = n + 1 := by omega
    rw [this]
    push_cast
    ring

theorem roundDiv20_eq_roundHalfEvenQ (tc : Nat) :
    (roundDiv20 tc : ℤ) = roundHalfEvenQ ((tc : ℚ) / 20) := by
  obtain ⟨n, r, rfl, hr⟩ : ∃ n r, tc = 20 * n + r ∧ r < 20 :=
    ⟨tc / 20, tc % 20, by omega, by omega⟩
  have hq : (20 * n + r) / 20 = n := by omega
  have hm : (20 * n + r) % 20 = r := by omega
  have hfl := floor_div20 n r hr
  have hfr : ((20 * n + r : ℕ) : ℚ) / 20 - (⌊((20 * n + r : ℕ) : ℚ) / 20⌋ : ℚ)
      = (r : ℚ) / 20 := by
    rw [hfl]; push_cast; ring
  have hlt : ((r : ℕ) : ℚ) / 20 < 1 / 2 ↔ r < 10 := by
    rw [div_lt_div_iff₀ (by norm_num) (by norm_num)]
    constructor
    · intro h
      by_contra hc
      have h1 : ((10 : ℕ) : ℚ) ≤ ((r : ℕ) : ℚ) := Nat.cast_le.mpr (by omega)
      push_cast at h1
      linarith
    · intro h
      have h1 : ((r : ℕ) : ℚ) < ((10 : ℕ) : ℚ) := Nat.cast_lt.mpr h
      push_cast at h1
      linarith
  have hgt : 1 / 2 < ((r : ℕ) : ℚ) / 20 ↔ 10 < r := by
    rw [div_lt_div_iff₀ (by norm_num) (by norm_num)]
    constructor
    · intro h
      by_contra hc
      have h1 : ((r : ℕ) : ℚ) ≤ ((10 : ℕ) : ℚ) := Nat.cast_le.mpr (by omega)
      push_cast at h1
      linarith
    · intro h
      have h1 : ((10 : ℕ) : ℚ) < ((r : ℕ) : ℚ) := Nat.cast_lt.mpr h
      push_cast at h1
      linarith
  unfold roundHalfEvenQ roundDiv20
  rw [hfr, hfl, hq, hm]
  by_cases h1 : r < 10
  · rw [if_pos h1, if_pos (hlt.mpr h1)]
  · by_cases h2 : 10 < r
    · have hc1 : ¬ (((r : ℕ) : ℚ) / 20 < 1 / 2) := by rw [hlt]; omega
      rw [if_neg h1, if_pos h2, if_neg hc1, if_pos (hgt.mpr h2)]
      push_cast; ring
    · have hc1 : ¬ (((r : ℕ) : ℚ) / 20 < 1 / 2) := by rw [hlt]; omega
      have hc2 : ¬ ((1 : ℚ) / 2 < ((r : ℕ) : ℚ) / 20) := by rw [hgt]; omega
      rw [if_neg h1, if_neg h2, if_neg hc1, if_neg hc2]
      by_cases h3 : n % 2 = 0
      · rw [if_pos h3, if_pos (by omega : (n : ℤ) % 2 = 0)]
      · rw [if_neg h3, if_neg (by omega : ¬ (n : ℤ) % 2 = 0)]
        push_cast; ring

/-- **C2, counterexample.**  For `tweet_count = 21` (inside the
configured bounds 20..100) the code computes `_max_scrolls = 1`, while
`ceil(21 / 20) = 2`: `_max_scrolls` is not the ceiling of
`tweet_count / 20`. -/
theorem maxScrolls_ne_ceil_at_21 :
    minTweetCount ≤ 21 ∧ 21 ≤ maxTweetCount ∧
    maxScrolls 21 = 1 ∧ ⌈(21 : ℚ) / 20⌉ = 2 := by
  refine ⟨by decide, by decide, by decide, ?_⟩
  have h := ceil_div20 21
  norm_num at h
  exact_mod_cast h

/-- **C2, amended.**  `_max_scrolls` equals `tweet_count / 20` rounded
to the nearest integer with ties to even (Python `round`) when
`tweet_count` lies within the configured bounds, and equals 1
otherwise. -/
theorem maxScrolls_eq_round
    (tc : Nat) :
    (minTweetCount ≤ tc ∧ tc ≤ maxTweetCount →
      (maxScrolls tc : ℤ) = roundHalfEvenQ ((tc : ℚ) / 20)) ∧
    (¬ (minTweetCount ≤ tc ∧ tc ≤ maxTweetCount) → maxScrolls tc = 1) := by
  constructor
  · intro h
    rw [maxScrolls, if_pos h]
    exact roundDiv20_eq_roundHalfEvenQ tc
  · intro h
    rw [maxScrolls, if_neg h]

/-- Witness for the amended C2 at `tweet_count = 30` (a tie: 1.5 rounds
to 2) and at the out-of-bounds `tweet_count = 10`. -/
theorem maxScrolls_eq_round_witness :
    ((minTweetCount ≤ 30 ∧ 30 ≤ maxTweetCount) →
      (maxScrolls 30 : ℤ) = roundHalfEvenQ ((30 : ℚ) / 20)) ∧
    (¬ (minTweetCount ≤ 10 ∧ 10 ≤ maxTweetCount) → maxScrolls 10 = 1) ∧
    minTweetCount ≤ 30 ∧ 30 ≤ maxTweetCount ∧
    ¬ (minTweetCount ≤ 10 ∧ 10 ≤ maxTweetCount) :=
  ⟨fun _ => (maxScrolls_eq_round 30).1 (by decide),
   fun _ => (maxScrolls_eq_round 10).2 (by decide),
   by decide, by decide, by decide⟩

/-! ## The scroll-and-wait capture loop of `timeline_tweet` -/

/-- One abstraction of the `while _scroll_count < _max_scrolls:` loop of
`timeline_tweet`, counting loop iterations (scroll passes):

    while _scroll_count < _max_scrolls:
        page.evaluate("window.scrollTo(0, document.body.scrollHeight)")
        new_height = page.evaluate("document.body.scrollHeight")
        if new_height == _prev_height:
            break
        _prev_height = new_height
        _scroll_count += 1
        <process intercepted responses>

`height i` is the document height observed on the i-th pass; `prev` is
`_prev_height` (initially -1); the remaining-fuel argument is
`_max_scrolls - _scroll_count`, so the recursion mirrors the loop
exactly. The result is the number of passes (iterations) performed. -/
def scrollPassesAux (height : Nat → Int) (i : Nat) (prev : Int) : Nat → Nat
  | 0 => 0
  | rem + 1 =>
      if height i = prev then 1
      else 1 + scrollPassesAux height (i + 1) (height i) rem

/-- Number of scroll passes performed by `timeline_tweet` for a given
requested `tweet_count` and observed height sequence. -/
def scrollPasses (height : Nat → Int) (tweetCount : Nat) : Nat :=
  scrollPassesAux height 0 (-1) (maxScrolls tweetCount)

theorem scrollPassesAux_le (height : Nat → Int) :
    ∀ rem i prev, scrollPassesAux height i prev rem ≤ rem
  | 0, _, _ => Nat.le_refl 0
  | rem + 1, i, prev => by
      rw [scrollPassesAux]
      by_cases h : height i = prev
      · rw [if_pos h]; omega
      · rw [if_neg h]
        have := scrollPassesAux_le height rem (i + 1) (height i)
        omega

theorem scrollPassesAux_stops (height : Nat → Int) (k : Nat)
    (hk : height k = height (k + 1)) :
    ∀ rem i prev, i ≤ k + 1 → (i = k + 1 → prev = height k) →
      scrollPassesAux height i prev rem ≤ k + 2 - i
  | 0, i, prev, _, _ => by rw [scrollPassesAux]; omega
  | rem + 1, i, prev, hi, hprev => by
      rw [scrollPassesAux]
      by_cases h : height i = prev
      · rw [if_pos h]; omega
      · rw [if_neg h]
        rcases Nat.lt_or_ge i (k + 1) with hik | hik
        · have := scrollPassesAux_stops height k hk rem (i + 1) (height i)
            (by omega) (by intro he; exact congrArg height (by omega : i = k))
          omega
        · exfalso
          have hie : i = k + 1 := by omega
          subst hie
          exact h (hk ▸ hprev rfl ▸ rfl)

/-- **C9.** For a timeline request with `tweet_count` within the
configured bounds, the capture loop performs at most
`ceil(tweet_count / 20)` scroll passes (for `tweet_count = 100`, at most
5), and it stops within `k + 2` passes as soon as two consecutive
passes `k` and `k+1` observe the same page height. -/
theorem timeline_scroll_pass_bound (height : Nat → Int) (tc : Nat)
    (hlo : minTweetCount ≤ tc) (hhi : tc ≤ maxTweetCount) :
    ((scrollPasses height tc : ℤ) ≤ ⌈(tc : ℚ) / 20⌉) ∧
    (tc = 100 → scrollPasses height tc ≤ 5) ∧
    (∀ k, height k = height (k + 1) → scrollPasses height tc ≤ k + 2) := by
  have hle : scrollPasses height tc ≤ maxScrolls tc :=
    scrollPassesAux_le height (maxScrolls tc) 0 (-1)
  have hms : maxScrolls tc = roundDiv20 tc := by
    rw [maxScrolls, if_pos ⟨hlo, hhi⟩]
  refine ⟨?_, ?_, ?_⟩
  · rw [ceil_div20]
    have hround : roundDiv20 tc ≤ (tc + 19) / 20 := by
      unfold roundDiv20
      by_cases h1 : tc % 20 < 10
      · rw [if_pos h1]; omega
      · rw [if_neg h1]
        by_cases h2 : 10 < tc % 20
        · rw [if_pos h2]; omega
        · rw [if_neg h2]
          by_cases h3 : tc / 20 % 2 = 0
          · rw [if_pos h3]; omega
          · rw [if_neg h3]; omega
    have : scrollPasses height tc ≤ (tc + 19) / 20 := by omega
    exact_mod_cast Nat.cast_le.mpr this
  · intro h100
    subst h100
    have : maxScrolls 100 = 5 := by decide
    omega
  · intro k hk
    have := scrollPassesAux_stops height k hk (maxScrolls tc) 0 (-1)
      (by omega) (by omega)
    have h2 : scrollPasses height tc = scrollPassesAux height 0 (-1) (maxScrolls tc) := rfl
    omega

/-- Witness for C9: `tweet_count = 100` with strictly increasing
heights performs at most 5 passes. -/
theorem timeline_scroll_pass_bound_witness :
    minTweetCount ≤ 100 ∧ 100 ≤ maxTweetCount ∧
    scrollPasses (fun i => (i : Int)) 100 ≤ 5 :=
  ⟨by decide, by decide,
   (timeline_scroll_pass_bound (fun i => (i : Int)) 100 (by decide)
      (by decide)).2.1 rfl⟩

/-! ## Session state: `ensure_login`, `login`, `check_login_status` -/

/-- A cookie of the persisted playwright storage state: name, value and
optional `expires` (epoch seconds as an integer here; the code compares
it against `time.time()`; `-1` means non-expiring; a missing `expires`
key means a session-scoped cookie). -/
structure Cookie where
  name : String
  value : String
  expires : Option Int
  deriving Repr, DecidableEq

/-- The states the persisted `state.json` file can be in, as seen by
`ensure_login` and `check_login_status`: absent, unreadable
(`json.JSONDecodeError`), or parsed, with the optional `cookies` key. -/
inductive StateFile where
  | absent : StateFile
  | corrupt : StateFile
  | parsed : Option (List Cookie) → StateFile
  deriving Repr, DecidableEq

/-- `not state_data.get('cookies')` in `ensure_login`: the cookies entry
is missing, `None`-like, or the empty list. -/
def cookiesFalsy : Option (List Cookie) → Bool
  | none => true
  | some [] => true
  | some (_ :: _) => false

/-- The `state.json` file parses and has a non-empty `cookies` list:
exactly the condition under which `ensure_login` proceeds with the
existing session. -/
def stateHasCookies : StateFile → Bool
  | .parsed (some (_ :: _)) => true
  | _ => false

/-- The single exception type of the engine
(`app/core/exceptions.ScrapingException`), carrying its message. -/
inductive ScrapeErr where
  | scraping : String → ScrapeErr
  deriving Repr, DecidableEq

/-- The message `ensure_login` raises when the state file is absent and
no credentials can be resolved (the spec's `NoCredentialsAvailable`). -/
def noCredentialsMsg : String := "No login state found and no credentials provided"

/-- The message `ensure_login` raises when the state file is corrupt or
cookie-less and no credentials can be resolved. -/
def corruptNoCredentialsMsg : String := "State file corrupted and no credentials provided"

/-- Environment of `ensure_login` that is external to the scraper
object: the first active database credential (already decrypted), if
any, and whether the playwright login flow completes without raising. -/
structure LoginEnv where
  dbCreds : Option (String × String)
  loginSucceeds : Bool
  deriving Repr, DecidableEq

/-- Result of running `ensure_login`: whether `login()` was called, how
many browser processes were launched, and the exception raised, if
any. -/
structure EnsureLoginResult where
  loginAttempted : Bool
  browsersLaunched : Nat
  error : Option ScrapeErr
  deriving Repr, DecidableEq

/-- `TwitterScraper.login`: raises unless both username and password are
set, otherwise launches one browser and performs the flow; any
playwright failure is re-raised as `ScrapingException("Login failed:
...")`. -/
def loginRun (creds : Option (String × String)) (env : LoginEnv) : EnsureLoginResult :=
  match creds with
  | none => ⟨true, 0, some (.scraping "Username and password required for login")⟩
  | some _ =>
      if env.loginSucceeds then ⟨true, 1, none⟩
      else ⟨true, 1, some (.scraping "Login failed")⟩

/-- The re-login detour shared by the three `ensure_login` branches that
need a fresh login (absent file, cookie-less file, corrupt file): use
the supplied credentials if both are present, else fall back to the
first active database credential; with no resolvable credential, or if
the fallback login itself raises, the branch's `except Exception`
handler raises `ScrapingException(msg)`. -/
def reloginBranch (creds : Option (String × String)) (env : LoginEnv)
    (msg : String) : EnsureLoginResult :=
  match creds with
  | some _ => loginRun creds env
  | none =>
      match env.dbCreds with
      | some c =>
          let r := loginRun (some c) env
          if r.error.isSome then { r with error := some (.scraping msg) } else r
      | none => ⟨false, 0, some (.scraping msg)⟩

/-- `TwitterScraper.ensure_login` (`twitter_scraper.py`): login is
re-attempted when the state file is absent, unreadable, or has a falsy
`cookies` entry; a parsed file with a non-empty `cookies` list is used
as-is with no validation of cookie names or expiries. -/
def ensureLogin (state : StateFile) (creds : Option (String × String))
    (env : LoginEnv) : EnsureLoginResult :=
  match state with
  | .absent => reloginBranch creds env noCredentialsMsg
  | .corrupt => reloginBranch creds env corruptNoCredentialsMsg
  | .parsed cookies =>
      if cookiesFalsy cookies then reloginBranch creds env corruptNoCredentialsMsg
      else ⟨false, 0, none⟩

/-- The recognized authentication-marker cookie names
(`check_login_status`). -/
def authMarkerNames : List String := ["auth_token", "ct0", "twid"]

/-- A cookie is unexpired at time `now` (`check_login_status`): an
`expires` of `-1`, an `expires` in the future, or no `expires` key
(session cookie). -/
def cookieUnexpired (now : Int) (c : Cookie) : Bool :=
  match c.expires with
  | some e => e == -1 || now < e
  | none => true

/-- `session_valid` as computed by `TwitterScraper.check_login_status`:
the state file parses, its cookie list is non-empty, at least one cookie
is unexpired, and among the unexpired cookies at least one bears a
recognized authentication-marker name. -/
def sessionValid (state : StateFile) (now : Int) : Bool :=
  match state with
  | .parsed cs =>
      let cookies := cs.getD []
      let valid := cookies.filter (cookieUnexpired now)
      if cookies.isEmpty then false
      else if valid.isEmpty then false
      else !(valid.filter (fun c => authMarkerNames.contains c.name)).isEmpty
  | _ => false

/-- Outcome of the shared prelude of the four scraping operations
(`search_user`, `following_user`, `followers_user`, `timeline_tweet`):
cache check, then `ensure_login`, then launching the capture browser. -/
structure OpOutcome where
  fromCache : Bool
  loginAttempted : Bool
  browsersLaunched : Nat
  failed : Option ScrapeErr
  deriving Repr, DecidableEq

/-- The shared prelude of every scraping operation: return the cached
result when the cache hits; otherwise run `ensure_login` (its exception
propagates, no capture browser is launched), then launch the capture
browser. -/
def runOpPrelude (cached : Option J) (state : StateFile)
    (creds : Option (String × String)) (env : LoginEnv) : OpOutcome :=
  match cached with
  | some _ => ⟨true, false, 0, none⟩
  | none =>
      let r := ensureLogin state creds env
      match r.error with
      | some e => ⟨false, r.loginAttempted, r.browsersLaunched, some e⟩
      | none => ⟨false, r.loginAttempted, r.browsersLaunched + 1, none⟩

/-- **C3, counterexample.**  A state file whose only cookie is an
expired non-marker cookie: every cache-missing operation proceeds
straight to capture with no login attempt, yet the session is invalid in
the sense of `check_login_status` (no unexpired recognized
authentication cookie). -/
theorem capture_without_login_despite_invalid_session :
    (runOpPrelude none (.parsed (some [⟨"foo", "x", some 1⟩])) none
        ⟨none, true⟩).loginAttempted = false ∧
    (runOpPrelude none (.parsed (some [⟨"foo", "x", some 1⟩])) none
        ⟨none, true⟩).failed = none ∧
    sessionValid (.parsed (some [⟨"foo", "x", some 1⟩])) 1000 = false := by
  refine ⟨rfl, rfl, ?_⟩
  decide

/-- **C3, amended.**  On a cache miss, the browser capture proceeds
without a login detour exactly when the persisted state file parses and
has a non-empty `cookies` list; no check of cookie names or expiries is
involved.  From any other state a login is attempted first when
credentials are resolvable, and otherwise the operation fails before
capturing. -/
theorem capture_without_login_iff_state_has_cookies
    (state : StateFile) (creds : Option (String × String)) (env : LoginEnv) :
    ((runOpPrelude none state creds env).loginAttempted = false ∧
      (runOpPrelude none state creds env).failed = none) ↔
    stateHasCookies state = true := by
  rcases state with _ | _ | cs
  · rcases creds with _ | c
    · rcases env with ⟨_ | d, ls⟩ <;>
        simp [runOpPrelude, ensureLogin, reloginBranch, loginRun, stateHasCookies] <;>
        by_cases h : ls = true <;> simp [h]
    · rcases env with ⟨d, ls⟩
      by_cases h : ls = true <;>
        simp [runOpPrelude, ensureLogin, reloginBranch, loginRun, stateHasCookies, h]
  · rcases creds with _ | c
    · rcases env with ⟨_ | d, ls⟩ <;>
        simp [runOpPrelude, ensureLogin, reloginBranch, loginRun, stateHasCookies] <;>
        by_cases h : ls = true <;> simp [h]
    · rcases env with ⟨d, ls⟩
      by_cases h : ls = true <;>
        simp [runOpPrelude, ensureLogin, reloginBranch, loginRun, stateHasCookies, h]
  · rcases cs with _ | ⟨_ | ⟨c, cs⟩⟩
    · rcases creds with _ | c
      · rcases env with ⟨_ | d, ls⟩ <;>
          simp [runOpPrelude, ensureLogin, reloginBranch, loginRun, stateHasCookies,
            cookiesFalsy] <;>
          by_cases h : ls = true <;> simp [h]
      · rcases env with ⟨d, ls⟩
        by_cases h : ls = true <;>
          simp [runOpPrelude, ensureLogin, reloginBranch, loginRun, stateHasCookies,
            cookiesFalsy, h]
    · rcases creds with _ | c
      · rcases env with ⟨_ | d, ls⟩ <;>
          simp [runOpPrelude, ensureLogin, reloginBranch, loginRun, stateHasCookies,
            cookiesFalsy] <;>
          by_cases h : ls = true <;> simp [h]
      · rcases env with ⟨d, ls⟩
        by_cases h : ls = true <;>
          simp [runOpPrelude, ensureLogin, reloginBranch, loginRun, stateHasCookies,
            cookiesFalsy, h]
    · simp [runOpPrelude, ensureLogin, reloginBranch, loginRun, stateHasCookies,
        cookiesFalsy]

/-- **C8.**  With an absent state file, no supplied credentials and no
active database credential, every scraping operation (on a cache miss)
fails with the no-credentials `ScrapingException` and launches no
browser. -/
theorem no_credentials_fails_without_browser (loginSucceeds : Bool) :
    runOpPrelude none .absent none ⟨none, loginSucceeds⟩ =
      ⟨false, false, 0, some (.scraping noCredentialsMsg)⟩ := by
  rcases loginSucceeds with _ | _ <;> rfl

/-! ## Python access semantics for intercepted json payloads -/

/-- The Python runtime errors that record extraction can raise.
`search_user` catches `(KeyError, TypeError)` per record;
`timeline_tweet` catches `(KeyError, TypeError, AttributeError)`; the
per-response handlers catch `(json.JSONDecodeError, KeyError)`; any
other error propagates and aborts the whole operation. -/
inductive PyErr where
  | keyError : PyErr
  | typeError : PyErr
  | attributeError : PyErr
  | indexError : PyErr
  | valueError : PyErr
  | zeroDivisionError : PyErr
  deriving Repr, DecidableEq

/-- Python `d[k]` for a string key: the value for an object holding the
key, `KeyError` for an object missing it, `TypeError` on any non-dict
(`None`, numbers, strings, lists are not subscriptable by `str`). -/
def jSub (v : J) (k : String) : Except PyErr J :=
  match v with
  | .obj kvs =>
      match kvs.lookup k with
      | some x => .ok x
      | none => .error .keyError
  | _ => .error .typeError

/-- Python `d.get(k, default)`: the value or the default for a dict,
`AttributeError` on anything else (no `.get` attribute). -/
def jGetD (v : J) (k : String) (d : J) : Except PyErr J :=
  match v with
  | .obj kvs => .ok ((kvs.lookup k).getD d)
  | _ => .error .attributeError

/-- Python `x[0]`: first element of a non-empty list (`IndexError` when
empty), first character of a non-empty string, `KeyError` for a dict
(no integer keys occur in this payload universe), `TypeError`
otherwise. -/
def jIndex0 (v : J) : Except PyErr J :=
  match v with
  | .arr (x :: _) => .ok x
  | .arr [] => .error .indexError
  | .str s =>
      match s.toList with
      | c :: _ => .ok (.str (String.mk [c]))
      | [] => .error .indexError
  | .obj _ => .error .keyError
  | _ => .error .typeError

/-- Python truthiness of a json value. -/
def jTruthy : J → Bool
  | .null => false
  | .bool b => b
  | .int n => n != 0
  | .str s => !s.isEmpty
  | .arr l => !l.isEmpty
  | .obj kvs => !kvs.isEmpty

/-- Python `k in v` for a string `k`: key containment for dicts,
membership for lists, substring test for strings (not needed here),
`TypeError` otherwise. -/
def jHasKey (v : J) (k : String) : Except PyErr Bool :=
  match v with
  | .obj kvs => .ok ((kvs.lookup k).isSome)
  | .arr l => .ok (l.contains (.str k))
  | .str s => .ok (decide (k.toList <:+: s.toList))
  | _ => .error .typeError

/-- Python `int(x)` on this value universe: ints unchanged, bools as
0/1, strings parsed (`ValueError` if unparsable), `TypeError` for
anything else. -/
def pyInt (v : J) : Except PyErr Int :=
  match v with
  | .int n => .ok n
  | .bool b => .ok (if b then 1 else 0)
  | .str s =>
      match s.toInt? with
      | some n => .ok n
      | none => .error .valueError
  | _ => .error .typeError

/-- Python `str(x)` as used in the tweet permalink f-string (`id_str` is
a string in practice; the dict/list rendering is approximated by the
json rendering, which no claim depends on). -/
def pyStr : J → String
  | .str s => s
  | .int n => toString n
  | .bool true => "True"
  | .bool false => "False"
  | .null => "None"
  | v => dumps v

/-- `list[:-2] if len(list) > 2 else list`: drop the up-to-two trailing
cursor entries. -/
def trimCursors (l : List J) : List J :=
  if 2 < l.length then l.take (l.length - 2) else l

/-! ## search_user record extraction -/

/-- The user record built by `TwitterScraper.search_user` for one raw
entry (field values held verbatim as json values; `priv` embeds the
`"private"` key, a Lean keyword). -/
structure UserRecord where
  user_id : J
  name : J
  screen_name : J
  bio : J
  location : J
  followers : J
  following : J
  tweets : J
  favorites : J
  priv : J
  verified : J
  avatar : J
  profile_banner : J
  created : J
  deriving Repr, DecidableEq

/-- Extraction of one `search_user` entry:

    legacy = sr['content']['itemContent']['user_results']['result']
    users.append({"user_id": legacy['rest_id'],
                  "name": legacy.get('core', {}).get('name', ''), ...})

Every subscript is `jSub`, every `.get` is `jGetD`. -/
def extractSearchEntry (sr : J) : Except PyErr UserRecord := do
  let c ← jSub sr "content"
  let ic ← jSub c "itemContent"
  let ur ← jSub ic "user_results"
  let legacy ← jSub ur "result"
  let userId ← jSub legacy "rest_id"
  let core ← jGetD legacy "core" (.obj [])
  let name ← jGetD core "name" (.str "")
  let screenName ← jGetD core "screen_name" (.str "")
  let leg ← jGetD legacy "legacy" (.obj [])
  let bio ← jGetD leg "description" (.str "")
  let loc ← jGetD legacy "location" (.obj [])
  let location ← jGetD loc "location" (.str "")
  let followers ← jGetD leg "followers_count" (.int 0)
  let following ← jGetD leg "friends_count" (.int 0)
  let tweets ← jGetD leg "statuses_count" (.int 0)
  let favorites ← jGetD leg "favourites_count" (.int 0)
  let priv ← jGetD leg "protected" (.bool false)
  let verified ← jGetD legacy "is_blue_verified" (.bool false)
  let av ← jGetD legacy "avatar" (.obj [])
  let avatar ← jGetD av "image_url" (.str "")
  let banner ← jGetD leg "profile_banner_url" (.str "")
  let created ← jGetD core "created_at" (.str "")
  pure ⟨userId, name, screenName, bio, location, followers, following,
    tweets, favorites, priv, verified, avatar, banner, created⟩

/-- The `for sr in search_result[:limit]` loop of `search_user` with its
per-record handler `except (KeyError, TypeError): continue`: those two
errors drop the record, any other error propagates. -/
def collectSearchUsers : List J → Except PyErr (List UserRecord)
  | [] => .ok []
  | sr :: rest =>
      match extractSearchEntry sr with
      | .ok u => do pure (u :: (← collectSearchUsers rest))
      | .error .keyError => collectSearchUsers rest
      | .error .typeError => collectSearchUsers rest
      | .error e => .error e

/-- The entry-batch processing of `search_user`: cursor trimming,
`[:limit]`, then per-record extraction. -/
def searchUsers (entries : List J) (limit : Nat) : Except PyErr (List UserRecord) :=
  collectSearchUsers ((trimCursors entries).take limit)

/-- `Except` success test (Python: the record handler did not fire). -/
def exOk {α : Type} : Except PyErr α → Bool
  | .ok _ => true
  | .error _ => false

/-- `Except` to `Option` (drop the error). -/
def exToOption {α : Type} : Except PyErr α → Option α
  | .ok a => some a
  | .error _ => none

/-- An extraction outcome that the per-record handler of `search_user`
copes with: success, or one of the two caught error classes
(`KeyError`, `TypeError`). -/
def searchSkippable {α : Type} : Except PyErr α → Bool
  | .ok _ => true
  | .error .keyError => true
  | .error .typeError => true
  | .error _ => false

theorem collectSearchUsers_eq (l : List J)
    (h : ∀ e ∈ l, searchSkippable (extractSearchEntry e) = true) :
    collectSearchUsers l =
      .ok (l.filterMap fun e => exToOption (extractSearchEntry e)) := by
  induction l with
  | nil => rfl
  | cons a rest ih =>
      have ha := h a (List.mem_cons_self a rest)
      have hrest := ih (fun e he => h e (List.mem_cons_of_mem a he))
      rcases hx : extractSearchEntry a with err | u
      · rw [hx] at ha
        cases err <;> simp [searchSkippable] at ha <;>
          simp [collectSearchUsers, hx, hrest, List.filterMap_cons, exToOption]
      · simp [collectSearchUsers, hx, hrest, List.filterMap_cons, exToOption]

theorem filterMap_exToOption_length {α β : Type} (f : α → Except PyErr β) (l : List α) :
    (l.filterMap fun e => exToOption (f e)).length
      = l.length - (l.filter fun e => !exOk (f e)).length := by
  induction l with
  | nil => rfl
  | cons a rest ih =>
      have hle : (rest.filter fun e => !exOk (f e)).length ≤ rest.length :=
        List.length_filter_le _ _
      rcases hx : f a with err | b
      · have h1 : List.filterMap (fun e => exToOption (f e)) (a :: rest)
            = List.filterMap (fun e => exToOption (f e)) rest := by
          rw [List.filterMap_cons, hx]
          rfl
        have h2 : List.filter (fun e => !exOk (f e)) (a :: rest)
            = a :: List.filter (fun e => !exOk (f e)) rest := by
          rw [List.filter_cons]
          simp [hx, exOk]
        rw [h1, h2]
        simp only [List.length_cons]
        omega
      · have h1 : List.filterMap (fun e => exToOption (f e)) (a :: rest)
            = b :: List.filterMap (fun e => exToOption (f e)) rest := by
          rw [List.filterMap_cons, hx]
          rfl
        have h2 : List.filter (fun e => !exOk (f e)) (a :: rest)
            = List.filter (fun e => !exOk (f e)) rest := by
          rw [List.filter_cons]
          simp [hx, exOk]
        rw [h1, h2]
        simp only [List.length_cons]
        omega

/-- **C7, amended.**  For a raw entry batch in which every malformed
entry fails extraction with `KeyError` or `TypeError` (the two classes
the per-record handler of `search_user` catches), a batch of N entries
with K malformed ones yields exactly N-K `UserRecord`s and no error:
each such malformed entry is dropped individually.  (An entry failing
with any other error, e.g. `AttributeError`, instead aborts the whole
batch — see the counterexample.) -/
theorem searchUsers_drops_key_type_errors (entries : List J) (limit : Nat)
    (h : ∀ e ∈ (trimCursors entries).take limit,
        searchSkippable (extractSearchEntry e) = true) :
    searchUsers entries limit =
      .ok (((trimCursors entries).take limit).filterMap
            (fun e => exToOption (extractSearchEntry e))) ∧
    (((trimCursors entries).take limit).filterMap
        (fun e => exToOption (extractSearchEntry e))).length =
      ((trimCursors entries).take limit).length -
      (((trimCursors entries).take limit).filter
        (fun e => !exOk (extractSearchEntry e))).length :=
  ⟨collectSearchUsers_eq _ h, filterMap_exToOption_length _ _⟩

/-- A well-formed `search_user` entry. -/
def goodSearchEntry : J :=
  .obj [("content", .obj [("itemContent", .obj [("user_results", .obj [("result",
    .obj [("rest_id", .str "42"),
          ("core", .obj [("name", .str "Alice Example"),
                         ("screen_name", .str "alice")]),
          ("legacy", .obj [("description", .str "hi"),
                           ("followers_count", .int 10)]),
          ("is_blue_verified", .bool false)])])])])]

/-- A malformed entry whose extraction raises `KeyError` (no `content`
key): dropped individually by the per-record handler. -/
def keyErrSearchEntry : J := .obj [("fake", .null)]

/-- A malformed entry whose extraction raises `AttributeError`
(`result.core` is json `null`, so `.get('name', '')` is called on
`None`): not caught by `except (KeyError, TypeError)`. -/
def attrErrSearchEntry : J :=
  .obj [("content", .obj [("itemContent", .obj [("user_results", .obj [("result",
    .obj [("rest_id", .str "9"), ("core", .null)])])])])]

/-- Witness for the amended C7: one well-formed and one
`KeyError`-malformed entry yield exactly one `UserRecord`. -/
theorem searchUsers_drops_key_type_errors_witness :
    (∀ e ∈ (trimCursors [goodSearchEntry, keyErrSearchEntry]).take 20,
        searchSkippable (extractSearchEntry e) = true) ∧
    searchUsers [goodSearchEntry, keyErrSearchEntry] 20 =
      .ok (((trimCursors [goodSearchEntry, keyErrSearchEntry]).take 20).filterMap
            (fun e => exToOption (extractSearchEntry e))) ∧
    (((trimCursors [goodSearchEntry, keyErrSearchEntry]).take 20).filterMap
        (fun e => exToOption (extractSearchEntry e))).length = 1 :=
  ⟨by decide,
   (searchUsers_drops_key_type_errors [goodSearchEntry, keyErrSearchEntry] 20
      (by decide)).1,
   by decide⟩

/-- **C7, counterexample.**  A batch of N=2 entries with K=1 malformed
entry (a `null` `core` field) does not yield N-K = 1 record: the
`AttributeError` escapes the per-record `except (KeyError, TypeError)`
handler of `search_user` and the whole batch errors. -/
theorem searchUsers_aborts_on_attrError_entry :
    searchUsers [goodSearchEntry, attrErrSearchEntry] 20 =
      .error .attributeError ∧
    extractSearchEntry attrErrSearchEntry = .error .attributeError := by
  constructor <;> rfl

/-! ## timeline_tweet record extraction -/

/-- `\w` of Python's `re` (ASCII word characters; the engine only
tokenizes `#token` / `@token`). -/
def isWordChar (c : Char) : Bool := c.isAlphanum || c == '_'

/-- Split a character stream into its longest word-character run and the
remainder. -/
def takeWord : List Char → List Char × List Char
  | [] => ([], [])
  | c :: rest =>
      if isWordChar c then
        let (w, r) := takeWord rest
        (c :: w, r)
      else ([], c :: rest)

/-- `re.findall(r'#(\w+)', text)` (with `marker = '#'`; also used for
`@`): scan for the marker and collect the non-empty word-character run
following it.  The fuel argument only bounds the recursion; the initial
call passes the text length, which always suffices. -/
def findTagsAux (marker : Char) : Nat → List Char → List String
  | 0, _ => []
  | _ + 1, [] => []
  | fuel + 1, c :: rest =>
      if c == marker then
        match takeWord rest with
        | (w, r) =>
            if w.isEmpty then findTagsAux marker fuel rest
            else String.mk w :: findTagsAux marker fuel r
      else findTagsAux marker fuel rest

/-- `re.findall` for the `#(\w+)` / `@(\w+)` patterns on a string. -/
def findTags (marker : Char) (s : String) : List String :=
  findTagsAux marker s.toList.length s.toList

example : findTags '#' "go #lean4 and #proofs, not ##x" = ["lean4", "proofs", "x"] := by rfl

example : findTags '@' "cc @alice@bob" = ["alice", "bob"] := by rfl

/-- `str.split("-")` on character lists. -/
def splitDash : List Char → List (List Char)
  | [] => [[]]
  | c :: rest =>
      if c == '-' then [] :: splitDash rest
      else
        match splitDash rest with
        | [] => [[c]]
        | g :: gs => (c :: g) :: gs

/-- `pat` occurs as a contiguous run at the start of `s`. -/
def seqStartsWith : List Char → List Char → Bool
  | [], _ => true
  | _ :: _, [] => false
  | a :: as_, b :: bs => a == b && seqStartsWith as_ bs

/-- Python `pat in s` on strings: contiguous substring test. -/
def containsSeq (pat : List Char) : List Char → Bool
  | [] => seqStartsWith pat []
  | c :: rest => seqStartsWith pat (c :: rest) || containsSeq pat rest

example : containsSeq "tweet".toList "promoted-tweet-123".toList = true := by rfl

example : containsSeq "tweet".toList "who-to-follow".toList = false := by rfl

/-- `any("tweet" in s for s in entry_id.split("-"))`. -/
def entryIdIsTweet (entryId : String) : Bool :=
  (splitDash entryId.toList).any (fun part => containsSeq "tweet".toList part)

/-- The tweet record built by `timeline_tweet` for one raw entry.  Field
values are held verbatim as json values where the code stores the raw
lookup result; `views`, `quote` and `engagement` are the converted
numbers the code computes.  The `date` field (a best-effort ISO-8601
re-rendering of `created_at`, falling back to the raw string, inside a
bare try/except that can never raise) is not modelled; no claim
concerns it. -/
structure TweetRecord where
  id : J
  user_id : J
  tweets : J
  screen_name : J
  name : J
  retweet : J
  replies : J
  link_media : J
  likes : J
  link : String
  views : Int
  quote : Int
  engagement : ℚ
  hashtags : List String
  mentions : List String
  source : J
  deriving Repr, DecidableEq

/-- The intermediate state of one `timeline_tweet` entry after the
hashtag/mention counters have been updated (the code updates
`hashtags_data` / `mentions_data` *before* the media, engagement and
permalink steps, so a record that fails later may still have been
counted). -/
structure TweetCtx where
  tweetData : J
  legacy : J
  view : J
  core : J
  co : J
  hashtags : List String
  mentions : List String
  deriving Repr, DecidableEq

/-- Steps of one `timeline_tweet` entry up to and including the counter
updates:

    if any("tweet" in s for s in tr['entryId'].split("-")):
        tweet_data = tr['content']['itemContent']['tweet_results']['result']
        legacy = tweet_data['legacy']
        view = tweet_data.get('views', {})
        core = tweet_data['core']['user_results']['result']['legacy']
        co = tweet_data['core']['user_results']['result']['core']
        hashtags = re.findall(r'#(\w+)', legacy['full_text'])
        mentions = re.findall(r'@(\w+)', legacy['full_text'])

`None` for an entry whose id does not mark a tweet. -/
def extractTweetStage1 (tr : J) : Except PyErr (Option TweetCtx) := do
  let entryId ← jSub tr "entryId"
  let eid ← match entryId with
    | .str s => pure s
    | _ => Except.error PyErr.attributeError
  if entryIdIsTweet eid then
    let c ← jSub tr "content"
    let ic ← jSub c "itemContent"
    let tres ← jSub ic "tweet_results"
    let tweetData ← jSub tres "result"
    let legacy ← jSub tweetData "legacy"
    let view ← jGetD tweetData "views" (.obj [])
    let cu ← jSub tweetData "core"
    let cur ← jSub cu "user_results"
    let curr ← jSub cur "result"
    let core ← jSub curr "legacy"
    let co ← jSub curr "core"
    let fullText ← jSub legacy "full_text"
    let ft ← match fullText with
      | .str s => pure s
      | _ => Except.error PyErr.typeError
    pure (some ⟨tweetData, legacy, view, core, co, findTags '#' ft, findTags '@' ft⟩)
  else
    pure none

/-- The media-URL selection of `timeline_tweet`:

    mediainf = ""
    if 'entities' in legacy and 'media' in legacy['entities'] and legacy['entities']['media']:
        media = legacy['entities']['media'][0]
        if media['type'] == 'video':
            mediainf = media.get('video_info', {}).get('variants', [{}])[0].get('url', '')
        elif media['type'] == 'photo':
            mediainf = media.get('media_url_https', '')
-/
def mediaInfo (legacy : J) : Except PyErr J := do
  let he ← jHasKey legacy "entities"
  if he then
    let entities ← jSub legacy "entities"
    let hm ← jHasKey entities "media"
    if hm then
      let mlist ← jSub entities "media"
      if jTruthy mlist then
        let media ← jIndex0 mlist
        let mt ← jSub media "type"
        if mt == J.str "video" then
          let vi ← jGetD media "video_info" (.obj [])
          let variants ← jGetD vi "variants" (.arr [.obj []])
          let v0 ← jIndex0 variants
          jGetD v0 "url" (.str "")
        else if mt == J.str "photo" then
          jGetD media "media_url_https" (.str "")
        else pure (.str "")
      else pure (.str "")
    else pure (.str "")
  else pure (.str "")

/-- The remaining steps of one `timeline_tweet` entry: media selection,
engagement computation (a plain `/` on Python numbers: a
`followers_count` of 0 raises `ZeroDivisionError`), permalink, and the
record literal.  Division is modelled exactly on `ℚ`. -/
def extractTweetStage2 (username : String) (ctx : TweetCtx) :
    Except PyErr TweetRecord := do
  let mediainf ← mediaInfo ctx.legacy
  let follower ← pyInt (← jGetD ctx.core "followers_count" (.int 1))
  let views ← if jTruthy ctx.view then pyInt (← jGetD ctx.view "count" (.int 0))
              else pure 0
  let like ← pyInt (← jGetD ctx.legacy "favorite_count" (.int 0))
  let retweetN ← pyInt (← jGetD ctx.legacy "retweet_count" (.int 0))
  let reply ← pyInt (← jGetD ctx.legacy "reply_count" (.int 0))
  let quote ← pyInt (← jGetD ctx.legacy "quote_count" (.int 0))
  if follower == 0 then
    Except.error .zeroDivisionError
  else
    let engagement : ℚ :=
      ((views + like + retweetN + reply + quote : Int) : ℚ) / (follower : ℚ) * 100
    let idStr ← jSub ctx.legacy "id_str"
    let urlTweet := "https://twitter.com/" ++ username ++ "/status/" ++ pyStr idStr
    let userId ← jGetD ctx.legacy "user_id_str" (.str "")
    let tweets ← jGetD ctx.legacy "full_text" (.str "")
    let screenName ← jGetD ctx.co "screen_name" (.str "")
    let name ← jGetD ctx.co "name" (.str "")
    let retweetJ ← jGetD ctx.legacy "retweet_count" (.int 0)
    let repliesJ ← jGetD ctx.legacy "reply_count" (.int 0)
    let likesJ ← jGetD ctx.legacy "favorite_count" (.int 0)
    let source ← jGetD ctx.tweetData "source" (.str "")
    pure ⟨idStr, userId, tweets, screenName, name, retweetJ, repliesJ, mediainf,
      likesJ, urlTweet, views, quote, engagement, ctx.hashtags, ctx.mentions, source⟩

/-- Full extraction of one `timeline_tweet` entry. -/
def extractTweetEntry (username : String) (tr : J) :
    Except PyErr (Option TweetRecord) := do
  match ← extractTweetStage1 tr with
  | none => pure none
  | some ctx => do
      let t ← extractTweetStage2 username ctx
      pure (some t)

/-- An extraction outcome the per-record handler of `timeline_tweet`
copes with: success or one of `except (KeyError, TypeError,
AttributeError)`. -/
def timelineSkippable (e : PyErr) : Bool :=
  match e with
  | .keyError => true
  | .typeError => true
  | .attributeError => true
  | _ => false

/-- A well-formed timeline tweet entry whose numeric engagement inputs
are parameters: author followers `f`, views `v`, likes `l`, retweets
`r`, replies `rp`, quotes `q`. -/
def mkTweetEntry (f v l r rp q : Int) : J :=
  .obj [("entryId", .str "tweet-1001"),
        ("content", .obj [("itemContent", .obj [("tweet_results", .obj [("result",
          .obj [("legacy", .obj [("full_text", .str "hello #lean @alice"),
                                 ("favorite_count", .int l),
                                 ("retweet_count", .int r),
                                 ("reply_count", .int rp),
                                 ("quote_count", .int q),
                                 ("id_str", .str "1001"),
                                 ("user_id_str", .str "7")]),
                ("views", .obj [("count", .int v)]),
                ("core", .obj [("user_results", .obj [("result",
                  .obj [("legacy", .obj [("followers_count", .int f)]),
                        ("core", .obj [("screen_name", .str "bob"),
                                       ("name", .str "Bob")])])])]),
                ("source", .str "web")])])])])]

/-- **C4, counterexample.**  A tweet whose author has `followers_count`
equal to 0 is *not* extracted: `int(core.get('followers_count', 1))`
defaults only when the key is absent, so the value 0 reaches the
division and raises `ZeroDivisionError`, which none of the extraction
handlers catches — the record is not produced and the error propagates
(aborting the operation). -/
theorem timeline_engagement_zero_follower_aborts :
    extractTweetEntry "alice" (mkTweetEntry 0 50 1 2 3 4) =
      .error .zeroDivisionError := by
  rfl

/-- **C4, amended.**  The computed engagement equals
`(views + likes + retweets + replies + quotes) / followers * 100` where
`followers` is `int(core.get('followers_count', 1))` — the default 1
applies only when the key is absent.  When the author's
`followers_count` is present and non-zero the record is extracted with
that exact ratio; when it is 0 the extraction raises an uncaught
`ZeroDivisionError` that aborts the whole operation. -/
theorem timeline_engagement_formula (f v l r rp q : Int) (hf : f ≠ 0) :
    (Except.map (Option.map TweetRecord.engagement)
        (extractTweetEntry "alice" (mkTweetEntry f v l r rp q)) =
      .ok (some (((v + l + r + rp + q : Int) : ℚ) / (f : ℚ) * 100))) ∧
    extractTweetEntry "alice" (mkTweetEntry 0 v l r rp q) =
      .error .zeroDivisionError := by
  constructor
  · have hb : (f == 0) = false := by
      simp [hf]
    have hkey : extractTweetEntry "alice" (mkTweetEntry f v l r rp q) =
        Except.bind
          (if f == 0 then Except.error .zeroDivisionError
           else Except.ok (⟨.str "1001", .str "7", .str "hello #lean @alice",
              .str "bob", .str "Bob", .int r, .int rp, .str "", .int l,
              "https://twitter.com/alice/status/1001", v, q,
              ((v + l + r + rp + q : Int) : ℚ) / (f : ℚ) * 100,
              ["lean"], ["alice"], .str "web"⟩ : TweetRecord))
          (fun t => Except.ok (some t)) := rfl
    rw [hkey]
    simp [hb, Except.map, Except.bind, Option.map]
  · rfl

/-- Witness for the amended C4 at followers 5, views 10, likes 20,
retweets 30, replies 15, quotes 25: engagement 100 * 100 / 5 = 2000. -/
theorem timeline_engagement_formula_witness :
    (5 : Int) ≠ 0 ∧
    Except.map (Option.map TweetRecord.engagement)
        (extractTweetEntry "alice" (mkTweetEntry 5 10 20 30 15 25)) =
      .ok (some (((10 + 20 + 30 + 15 + 25 : Int) : ℚ) / ((5 : Int) : ℚ) * 100)) :=
  ⟨by decide, (timeline_engagement_formula 5 10 20 30 15 25 (by decide)).1⟩

/-! ## The timeline capture loop and response re-processing (C10) -/

/-- An intercepted XHR response: its URL and its decoded json body
(`none` when `xhr.json()` raises `json.JSONDecodeError`). -/
structure Resp where
  url : String
  body : Option J
  deriving Repr, DecidableEq

/-- `re.search("UserTweets", f.url)`: substring test. -/
def urlMatchesUserTweets (r : Resp) : Bool :=
  containsSeq "UserTweets".toList r.url.toList

/-- `next((ins['entries'] for ins in instruction if ins['type'] ==
'TimelineAddEntries'), [])`: iterating a non-list raises `TypeError`;
`ins['type']` / `ins['entries']` are plain subscripts. -/
def findAddEntriesAux : List J → Except PyErr J
  | [] => .ok (.arr [])
  | ins :: rest => do
      let t ← jSub ins "type"
      if t == J.str "TimelineAddEntries" then jSub ins "entries"
      else findAddEntriesAux rest

def findAddEntries (instr : J) : Except PyErr J :=
  match instr with
  | .arr items => findAddEntriesAux items
  | _ => .error .typeError

/-- `len(...)` / `[:-2]` on a non-list raises `TypeError`. -/
def asArr (v : J) : Except PyErr (List J) :=
  match v with
  | .arr l => .ok l
  | _ => .error .typeError

/-- The `for tr in tweet_result:` loop of `timeline_tweet` with its
handler `except (KeyError, TypeError, AttributeError): continue`,
accumulating the extracted records and the hashtag/mention occurrences
that were counted.  The counters are updated before the media,
engagement and permalink steps, so an entry that fails one of those
steps with a caught error class has still contributed its
hashtag/mention occurrences. -/
def collectTweets (username : String) :
    List J → Except PyErr (List TweetRecord × List String × List String)
  | [] => .ok ([], [], [])
  | tr :: rest =>
      match extractTweetStage1 tr with
      | .error e =>
          if timelineSkippable e then collectTweets username rest
          else .error e
      | .ok none => collectTweets username rest
      | .ok (some ctx) =>
          match extractTweetStage2 username ctx with
          | .ok t => do
              let (ts, hs, ms) ← collectTweets username rest
              pure (t :: ts, ctx.hashtags ++ hs, ctx.mentions ++ ms)
          | .error e =>
              if timelineSkippable e then do
                let (ts, hs, ms) ← collectTweets username rest
                pure (ts, ctx.hashtags ++ hs, ctx.mentions ++ ms)
              else .error e

/-- Processing of one intercepted response inside a scroll pass: a
non-matching URL is ignored; `xhr.json()` failure and `KeyError`
anywhere in the envelope traversal are caught by
`except (json.JSONDecodeError, KeyError): continue`; any other error
propagates and aborts the operation. -/
def processResp (username : String) (r : Resp) :
    Except PyErr (List TweetRecord × List String × List String) :=
  if urlMatchesUserTweets r then
    match r.body with
    | none => .ok ([], [], [])
    | some data =>
        match (do
            let d ← jSub data "data"
            let u ← jSub d "user"
            let res ← jSub u "result"
            let tl ← jSub res "timeline"
            let tl2 ← jSub tl "timeline"
            let instr ← jSub tl2 "instructions"
            let entries ← findAddEntries instr
            let l ← asArr entries
            collectTweets username (trimCursors l) :
          Except PyErr (List TweetRecord × List String × List String)) with
        | .ok out => .ok out
        | .error .keyError => .ok ([], [], [])
        | .error e => .error e
  else .ok ([], [], [])

/-- One scroll pass re-processes the whole accumulated `_xhr_calls`
list: every response intercepted during passes `0..i`. -/
def accumResps (arrivals : Nat → List Resp) (i : Nat) : List Resp :=
  ((List.range (i + 1)).map arrivals).flatten

/-- Process every accumulated response of one pass, concatenating
records and counted occurrences in interception order. -/
def processPass (username : String) :
    List Resp → Except PyErr (List TweetRecord × List String × List String)
  | [] => .ok ([], [], [])
  | r :: rest => do
      let (ts, hs, ms) ← processResp username r
      let (ts2, hs2, ms2) ← processPass username rest
      pure (ts ++ ts2, hs ++ hs2, ms ++ ms2)

/-- The scroll-and-wait loop of `timeline_tweet` with its response
processing: the state is the accumulated `timeline` list and the
hashtag/mention occurrence streams; `i` is `_scroll_count`, the fuel is
`_max_scrolls - _scroll_count`.  Returns the number of processed passes
and the final accumulators. -/
def tlLoop (username : String) (arrivals : Nat → List Resp) (height : Nat → Int) :
    Nat → Nat → Int → (List TweetRecord × List String × List String) →
    Except PyErr (Nat × (List TweetRecord × List String × List String))
  | 0, i, _, acc => .ok (i, acc)
  | rem + 1, i, prev, acc =>
      if height i = prev then .ok (i, acc)
      else do
        let (ts, hs, ms) ← processPass username (accumResps arrivals i)
        tlLoop username arrivals height rem (i + 1) (height i)
          (acc.1 ++ ts, acc.2.1 ++ hs, acc.2.2 ++ ms)

/-- The capture phase of `timeline_tweet` for a request of `tweetCount`
tweets: run the scroll loop with the `_max_scrolls` budget from an
initial `_prev_height` of -1 and empty accumulators. -/
def timelineCapture (username : String) (arrivals : Nat → List Resp)
    (height : Nat → Int) (tweetCount : Nat) :
    Except PyErr (Nat × (List TweetRecord × List String × List String)) :=
  tlLoop username arrivals height (maxScrolls tweetCount) 0 (-1) ([], [], [])

theorem accumResps_mem (arrivals : Nat → List Resp) (r : Resp)
    (hr : r ∈ arrivals 0) (i : Nat) : r ∈ accumResps arrivals i := by
  unfold accumResps
  rw [List.mem_flatten]
  exact ⟨arrivals 0, List.mem_map_of_mem arrivals (List.mem_range.mpr (by omega)), hr⟩

theorem processPass_count (u : String) (r : Resp)
    (t : TweetRecord) (g g2 : String) (a : List TweetRecord) (b c : List String)
    (hresp : processResp u r = .ok (a, b, c)) :
    ∀ l ts hs ms, processPass u l = .ok (ts, hs, ms) → r ∈ l →
      a.count t ≤ ts.count t ∧ b.count g ≤ hs.count g ∧ c.count g2 ≤ ms.count g2 := by
  intro l
  induction l with
  | nil => intro ts hs ms _ hmem; cases hmem
  | cons rh rest ih =>
      intro ts hs ms h hmem
      rw [processPass] at h
      rcases hx : processResp u rh with e | ⟨a1, b1, c1⟩ <;> rw [hx] at h
      · simp only [bind, Except.bind] at h
        cases h
      · rcases hy : processPass u rest with e | ⟨ts2, hs2, ms2⟩ <;> rw [hy] at h
        · simp only [bind, Except.bind] at h
          cases h
        · simp only [bind, Except.bind, pure, Except.pure, Except.ok.injEq,
            Prod.mk.injEq] at h
          obtain ⟨h1, h2, h3⟩ := h
          subst h1; subst h2; subst h3
          rcases List.mem_cons.mp hmem with he | hmem2
          · subst he
            rw [hresp] at hx
            obtain ⟨ha, hb, hc⟩ : a = a1 ∧ b = b1 ∧ c = c1 := by
              simpa [Prod.ext_iff] using Except.ok.inj hx
            subst ha; subst hb; subst hc
            refine ⟨?_, ?_, ?_⟩ <;> rw [List.count_append] <;> omega
          · have := ih ts2 hs2 ms2 hy hmem2
            refine ⟨?_, ?_, ?_⟩ <;> rw [List.count_append] <;> omega

theorem tlLoop_count (u : String) (arrivals : Nat → List Resp) (height : Nat → Int)
    (r : Resp) (t : TweetRecord) (g g2 : String)
    (a : List TweetRecord) (b c : List String)
    (hr : r ∈ arrivals 0) (hresp : processResp u r = .ok (a, b, c)) :
    ∀ rem i prev acc p res,
      tlLoop u arrivals height rem i prev acc = .ok (p, res) →
      i ≤ p ∧
      acc.1.count t + (p - i) * a.count t ≤ res.1.count t ∧
      acc.2.1.count g + (p - i) * b.count g ≤ res.2.1.count g ∧
      acc.2.2.count g2 + (p - i) * c.count g2 ≤ res.2.2.count g2 := by
  intro rem
  induction rem with
  | zero =>
      intro i prev acc p res h
      rw [tlLoop] at h
      obtain ⟨h1, h2⟩ : i = p ∧ acc = res := by
        simpa [Prod.ext_iff] using Except.ok.inj h
      subst h1; subst h2
      simp
  | succ rem ih =>
      intro i prev acc p res h
      rw [tlLoop] at h
      by_cases hh : height i = prev
      · rw [if_pos hh] at h
        obtain ⟨h1, h2⟩ : i = p ∧ acc = res := by
          simpa [Prod.ext_iff] using Except.ok.inj h
        subst h1; subst h2
        simp
      · rw [if_neg hh] at h
        rcases hx : processPass u (accumResps arrivals i) with e | ⟨ts, hs, ms⟩ <;>
          rw [hx] at h
        · simp only [bind, Except.bind] at h
          cases h
        · simp only [bind, Except.bind] at h
          have hcnt := processPass_count u r t g g2 a b c hresp
            (accumResps arrivals i) ts hs ms hx (accumResps_mem arrivals r hr i)
          have hrec := ih (i + 1) (height i)
            (acc.1 ++ ts, acc.2.1 ++ hs, acc.2.2 ++ ms) p res h
          obtain ⟨hip, hc1, hc2, hc3⟩ := hrec
          have hc1' : acc.1.count t + ts.count t + (p - (i + 1)) * a.count t
              ≤ res.1.count t := by
            simpa [List.count_append] using hc1
          have hc2' : acc.2.1.count g + hs.count g + (p - (i + 1)) * b.count g
              ≤ res.2.1.count g := by
            simpa [List.count_append] using hc2
          have hc3' : acc.2.2.count g2 + ms.count g2 + (p - (i + 1)) * c.count g2
              ≤ res.2.2.count g2 := by
            simpa [List.count_append] using hc3
          have hk : p - i = (p - (i + 1)) + 1 := by omega
          refine ⟨by omega, ?_, ?_, ?_⟩
          · rw [hk, Nat.succ_mul]
            have hle := hcnt.1
            generalize (p - (i + 1)) * List.count t a = kx at hc1' ⊢
            omega
          · rw [hk, Nat.succ_mul]
            have hle := hcnt.2.1
            generalize (p - (i + 1)) * List.count g b = kx at hc2' ⊢
            omega
          · rw [hk, Nat.succ_mul]
            have hle := hcnt.2.2
            generalize (p - (i + 1)) * List.count g2 c = kx at hc3' ⊢
            omega

theorem count_map_ge {α β : Type} [DecidableEq α] [DecidableEq β]
    (f : α → β) (l : List α) (x : α) :
    l.count x ≤ (l.map f).count (f x) := by
  induction l with
  | nil => simp
  | cons a rest ih =>
      rw [List.map_cons, List.count_cons, List.count_cons]
      by_cases hxa : (a == x) = true
      · have hx : a = x := by simpa using hxa
        subst hx
        simp only [beq_self_eq_true, if_true]
        omega
      · have h1 : (if (a == x) = true then 1 else 0) = 0 := by
          simp [hxa]
        rw [h1]
        split <;> omega

/-- **C10.**  Each scroll pass of `timeline_tweet` re-scans the entire
accumulated `_xhr_calls` list and re-extracts every `UserTweets`
response, including ones already processed.  Hence for a successful
capture of `p` processed passes, a matching response `r` intercepted
during the first pass has its tweet records appearing at least once per
pass: at least `p` times for each record (so, with `p ≥ 2,` duplicate
tweet ids), and every hashtag / mention occurrence of those tweets is
counted at least once per pass. -/
theorem timeline_reprocesses_responses_each_pass
    (u : String) (arrivals : Nat → List Resp) (height : Nat → Int) (tc : Nat)
    (r : Resp) (t : TweetRecord) (tag mtag : String)
    (p : Nat) (res : List TweetRecord × List String × List String)
    (a : List TweetRecord) (b c : List String)
    (hrun : timelineCapture u arrivals height tc = .ok (p, res))
    (hp : 2 ≤ p) (hr : r ∈ arrivals 0)
    (hresp : processResp u r = .ok (a, b, c)) :
    (t ∈ a → 2 ≤ res.1.count t ∧
      2 ≤ (res.1.map TweetRecord.id).count t.id) ∧
    p * a.count t ≤ res.1.count t ∧
    p * b.count tag ≤ res.2.1.count tag ∧
    p * c.count mtag ≤ res.2.2.count mtag := by
  have hloop := tlLoop_count u arrivals height r t tag mtag a b c hr hresp
    (maxScrolls tc) 0 (-1) ([], [], []) p res hrun
  obtain ⟨_, h1, h2, h3⟩ := hloop
  simp only [List.count_nil, Nat.zero_add, Nat.sub_zero] at h1 h2 h3
  refine ⟨?_, h1, h2, h3⟩
  intro hmem
  have hpos : 1 ≤ a.count t := List.count_pos_iff.mpr hmem
  have hcount : 2 ≤ res.1.count t := by
    have : 2 * 1 ≤ p * a.count t := Nat.mul_le_mul hp hpos
    omega
  exact ⟨hcount, le_trans hcount (le_trans (count_map_ge TweetRecord.id res.1 t)
    (Nat.le_refl _))⟩

instance {ε α : Type} [DecidableEq ε] [DecidableEq α] : DecidableEq (Except ε α) :=
  fun x y =>
    match x, y with
    | .error a, .error b =>
        if h : a = b then isTrue (by rw [h])
        else isFalse (by intro hc; cases hc; exact h rfl)
    | .ok a, .ok b =>
        if h : a = b then isTrue (by rw [h])
        else isFalse (by intro hc; cases hc; exact h rfl)
    | .error _, .ok _ => isFalse (by intro hc; cases hc)
    | .ok _, .error _ => isFalse (by intro hc; cases hc)

/-- A concrete `UserTweets` response intercepted during the first pass,
carrying one tweet entry. -/
def demoTweetResp : Resp :=
  ⟨"https://twitter.com/i/api/graphql/abc/UserTweets?variables=x",
   some (.obj [("data", .obj [("user", .obj [("result", .obj [("timeline",
     .obj [("timeline", .obj [("instructions",
       .arr [.obj [("type", .str "TimelineClearCache")],
             .obj [("type", .str "TimelineAddEntries"),
                   ("entries", .arr [mkTweetEntry 5 10 20 30 15 25])]])])])])])])])⟩

/-- An interception schedule where `demoTweetResp` arrives during the
first pass and nothing else is intercepted. -/
def demoArrivals : Nat → List Resp := fun i => if i = 0 then [demoTweetResp] else []

/-- Strictly growing page heights (no early height-stability stop). -/
def demoHeight : Nat → Int := fun i => (i : Int) + 1

/-- The record extracted from `demoTweetResp`. -/
def demoRecord : TweetRecord :=
  ⟨.str "1001", .str "7", .str "hello #lean @alice", .str "bob", .str "Bob",
   .int 30, .int 15, .str "", .int 20, "https://twitter.com/alice/status/1001",
   10, 25, ((10 + 20 + 30 + 15 + 25 : Int) : ℚ) / ((5 : Int) : ℚ) * 100,
   ["lean"], ["alice"], .str "web"⟩

/-- The final accumulators of the demo capture (`tweet_count = 40`, so 2
passes): the single tweet appears twice and each hashtag/mention
occurrence is counted twice. -/
def demoFinal : List TweetRecord × List String × List String :=
  ([demoRecord, demoRecord], ["lean", "lean"], ["alice", "alice"])

/-- Witness for C10: the demo capture performs 2 passes, re-extracts the
first pass's response on the second pass, and the returned timeline
contains the tweet (and its id) at least twice. -/
theorem timeline_reprocesses_responses_each_pass_witness :
    timelineCapture "alice" demoArrivals demoHeight 40 = .ok (2, demoFinal) ∧
    (2 : Nat) ≤ 2 ∧
    demoTweetResp ∈ demoArrivals 0 ∧
    processResp "alice" demoTweetResp = .ok ([demoRecord], ["lean"], ["alice"]) ∧
    demoRecord ∈ [demoRecord] ∧
    2 ≤ demoFinal.1.count demoRecord ∧
    2 ≤ (demoFinal.1.map TweetRecord.id).count demoRecord.id :=
  ⟨rfl, by decide, List.mem_singleton.mpr rfl, rfl, List.mem_singleton.mpr rfl,
   ((timeline_reprocesses_responses_each_pass "alice" demoArrivals demoHeight 40
      demoTweetResp demoRecord "lean" "alice" 2 demoFinal
      [demoRecord] ["lean"] ["alice"]
      rfl (by decide) (List.mem_singleton.mpr rfl) rfl).1
        (List.mem_singleton.mpr rfl)).1,
   ((timeline_reprocesses_responses_each_pass "alice" demoArrivals demoHeight 40
      demoTweetResp demoRecord "lean" "alice" 2 demoFinal
      [demoRecord] ["lean"] ["alice"]
      rfl (by decide) (List.mem_singleton.mpr rfl) rfl).1
        (List.mem_singleton.mpr rfl)).2⟩

/-! ## json.loads

A model of `json.loads` restricted to the grammar that `json.dumps`
(that is, `dumps`) emits — the only strings the cache layer ever stores
and reads back.  On that domain the Python pair satisfies
`json.loads(json.dumps(v)) == v`, which is proved below as
`loads_dumps`.  All recursions are fuel-bounded so that every function
evaluates by kernel reduction; `loads` passes fuel that is always
sufficient. -/

/-- Value of a hex digit character. -/
def hexVal (c : Char) : Option Nat :=
  let n := c.toNat
  if 48 ≤ n ∧ n ≤ 57 then some (n - 48)
  else if 97 ≤ n ∧ n ≤ 102 then some (n - 87)
  else if 65 ≤ n ∧ n ≤ 70 then some (n - 55)
  else none

/-- Read exactly four hex digits. -/
def readHex4 : List Char → Option (Nat × List Char)
  | a :: b :: c :: d :: rest => do
      let va ← hexVal a
      let vb ← hexVal b
      let vc ← hexVal c
      let vd ← hexVal d
      some (((va * 16 + vb) * 16 + vc) * 16 + vd, rest)
  | _ => none

/-- Surrogate-pair tail of a `\u` escape: expect a low surrogate and
recombine. -/
def parseUPair (recur : List Char → Option (List Char × List Char)) (n : Nat) :
    Nat × List Char → Option (List Char × List Char)
  | (lo, r4) =>
      if 56320 ≤ lo ∧ lo < 57344 then
        (recur r4).map (fun p =>
          (Char.ofNat ((n - 55296) * 1024 + (lo - 56320) + 65536) :: p.1, p.2))
      else none

/-- High-surrogate continuation: expect a second `\u` escape. -/
def parseUHigh (recur : List Char → Option (List Char × List Char)) (n : Nat) :
    List Char → Option (List Char × List Char)
  | b1 :: b2 :: r3 =>
      if b1 = '\\' ∧ b2 = 'u' then
        match readHex4 r3 with
        | none => none
        | some lr => parseUPair recur n lr
      else none
  | _ => none

/-- Continuation of a `\u` escape after its four hex digits: either a
plain BMP code point or a high surrogate followed by `\u` and a low
surrogate. -/
def parseUCont (recur : List Char → Option (List Char × List Char)) :
    Nat × List Char → Option (List Char × List Char)
  | (n, r2) =>
      if 55296 ≤ n ∧ n < 56320 then parseUHigh recur n r2
      else (recur r2).map (fun p => (Char.ofNat n :: p.1, p.2))

/-- Parse the body of a json string up to the closing quote, decoding
escapes (with surrogate-pair recombination). -/
def parseStrBody : Nat → List Char → Option (List Char × List Char)
  | 0, _ => none
  | fuel + 1, s =>
      match s with
      | [] => none
      | c :: rest =>
          if c = '"' then some ([], rest)
          else if c = '\\' then
            match rest with
            | [] => none
            | e :: rest2 =>
                if e = '"' then
                  (parseStrBody fuel rest2).map (fun p => ('"' :: p.1, p.2))
                else if e = '\\' then
                  (parseStrBody fuel rest2).map (fun p => ('\\' :: p.1, p.2))
                else if e = 'b' then
                  (parseStrBody fuel rest2).map (fun p => (Char.ofNat 8 :: p.1, p.2))
                else if e = 'f' then
                  (parseStrBody fuel rest2).map (fun p => (Char.ofNat 12 :: p.1, p.2))
                else if e = 'n' then
                  (parseStrBody fuel rest2).map (fun p => (Char.ofNat 10 :: p.1, p.2))
                else if e = 'r' then
                  (parseStrBody fuel rest2).map (fun p => (Char.ofNat 13 :: p.1, p.2))
                else if e = 't' then
                  (parseStrBody fuel rest2).map (fun p => (Char.ofNat 9 :: p.1, p.2))
                else if e = 'u' then
                  match readHex4 rest2 with
                  | none => none
                  | some nr => parseUCont (parseStrBody fuel) nr
                else none
          else (parseStrBody fuel rest).map (fun p => (c :: p.1, p.2))

/-- Greedily consume decimal digits, extending the accumulator. -/
def parseDigits : Nat → Nat → List Char → Nat × List Char
  | 0, acc, s => (acc, s)
  | fuel + 1, acc, s =>
      match s with
      | [] => (acc, [])
      | c :: rest =>
          if c.isDigit then parseDigits fuel (acc * 10 + (c.toNat - 48)) rest
          else (acc, s)

/-- Tail of a `null` literal. -/
def parseLitNull : List Char → Option (J × List Char)
  | 'u' :: 'l' :: 'l' :: r => some (.null, r)
  | _ => none

/-- Tail of a `true` literal. -/
def parseLitTrue : List Char → Option (J × List Char)
  | 'r' :: 'u' :: 'e' :: r => some (.bool true, r)
  | _ => none

/-- Tail of a `false` literal. -/
def parseLitFalse : List Char → Option (J × List Char)
  | 'a' :: 'l' :: 's' :: 'e' :: r => some (.bool false, r)
  | _ => none

/-- Close an array after its element list. -/
def parseArrFinish : Option (List J × List Char) → Option (J × List Char)
  | some (es, ']' :: r3) => some (.arr es, r3)
  | _ => none

/-- Array body: empty, or a non-empty element list and the closing
bracket. -/
def parseArrBranch (pe : List Char → Option (List J × List Char))
    (c2 : Char) (r : List Char) : Option (J × List Char) :=
  if c2 = ']' then some (.arr [], r) else parseArrFinish (pe (c2 :: r))

/-- Close an object after its member list. -/
def parseObjFinish : Option (List (String × J) × List Char) → Option (J × List Char)
  | some (ms, '}' :: r3) => some (.obj ms, r3)
  | _ => none

/-- Object body: empty, or a non-empty member list and the closing
brace. -/
def parseObjBranch (pm : List Char → Option (List (String × J) × List Char))
    (c2 : Char) (r : List Char) : Option (J × List Char) :=
  if c2 = '}' then some (.obj [], r) else parseObjFinish (pm (c2 :: r))

/-- Digits of a negative integer after the minus sign. -/
def parseNegBranch (d : Char) (r2 : List Char) : Option (J × List Char) :=
  if d.isDigit then
    some (.int (-((parseDigits r2.length (d.toNat - 48) r2).1 : Int)),
      (parseDigits r2.length (d.toNat - 48) r2).2)
  else none

/-- Continuation after one element: stop, or consume `", "` and go on. -/
def parseElemsCont (re : List Char → Option (List J × List Char)) :
    Option (J × List Char) → Option (List J × List Char)
  | none => none
  | some (v, r) =>
      match r with
      | [] => some ([v], [])
      | c :: r1 =>
          if c = ',' then
            match r1 with
            | [] => none
            | c2 :: r2 =>
                if c2 = ' ' then
                  match re r2 with
                  | none => none
                  | some (vs, r3) => some (v :: vs, r3)
                else none
          else some ([v], c :: r1)

/-- Continuation after one member value: stop, or consume `", "` and go
on. -/
def parseMemberVal (rm : List Char → Option (List (String × J) × List Char))
    (key : String) : Option (J × List Char) → Option (List (String × J) × List Char)
  | none => none
  | some (v, r4) =>
      match r4 with
      | [] => some ([(key, v)], [])
      | c3 :: r5 =>
          if c3 = ',' then
            match r5 with
            | [] => none
            | c4 :: r6 =>
                if c4 = ' ' then
                  match rm r6 with
                  | none => none
                  | some (ms, r7) => some ((key, v) :: ms, r7)
                else none
          else some ([(key, v)], c3 :: r5)

/-- Continuation after a member key string: expect `": "` and the
value. -/
def parseMembersCont (rm : List Char → Option (List (String × J) × List Char))
    (rv : List Char → Option (J × List Char)) :
    Option (List Char × List Char) → Option (List (String × J) × List Char)
  | none => none
  | some (ks, r1) =>
      match r1 with
      | [] => none
      | c1 :: r2 =>
          if c1 = ':' then
            match r2 with
            | [] => none
            | c2 :: r3 =>
                if c2 = ' ' then parseMemberVal rm (String.mk ks) (rv r3)
                else none
          else none

mutual
/-- Parse one json value of the `dumps` grammar. -/
def parseJ : Nat → List Char → Option (J × List Char)
  | 0, _ => none
  | fuel + 1, s =>
      match s with
      | [] => none
      | c :: rest =>
          if c = 'n' then parseLitNull rest
          else if c = 't' then parseLitTrue rest
          else if c = 'f' then parseLitFalse rest
          else if c = '"' then
            (parseStrBody (rest.length + 1) rest).map
              (fun p => (.str (String.mk p.1), p.2))
          else if c = '[' then
            match rest with
            | [] => none
            | c2 :: r => parseArrBranch (parseElems fuel) c2 r
          else if c = '{' then
            match rest with
            | [] => none
            | c2 :: r => parseObjBranch (parseMembers fuel) c2 r
          else if c = '-' then
            match rest with
            | [] => none
            | d :: r2 => parseNegBranch d r2
          else if c.isDigit then
            some (.int ((parseDigits rest.length (c.toNat - 48) rest).1 : Int),
              (parseDigits rest.length (c.toNat - 48) rest).2)
          else none

/-- Parse a non-empty `", "`-separated element list. -/
def parseElems : Nat → List Char → Option (List J × List Char)
  | 0, _ => none
  | fuel + 1, s => parseElemsCont (parseElems fuel) (parseJ fuel s)

/-- Parse a non-empty `", "`-separated member list. -/
def parseMembers : Nat → List Char → Option (List (String × J) × List Char)
  | 0, _ => none
  | fuel + 1, s =>
      match s with
      | [] => none
      | c :: r0 =>
          if c = '"' then
            parseMembersCont (parseMembers fuel) (parseJ fuel)
              (parseStrBody (r0.length + 1) r0)
          else none
end

/-- `json.loads`: parse the whole string (always-sufficient fuel),
requiring the remainder to be empty. -/
def loads (s : String) : Option J :=
  match parseJ (s.toList.length + 1) s.toList with
  | some (v, []) => some v
  | _ => none

example : loads (dumps (.obj [("a", .arr [.int 1, .int (-2), .str "x\"y", .null]),
    ("b", .bool true)])) = some (.obj [("a", .arr [.int 1, .int (-2), .str "x\"y", .null]),
    ("b", .bool true)]) := by rfl

/-! ### Roundtrip: digits -/

theorem digitChar_isDigit : ∀ d, d < 10 → (digitChar d).isDigit = true := by decide

theorem digitChar_toNat : ∀ d, d < 10 → (digitChar d).toNat = 48 + d := by decide

theorem natCharsAux_irrel :
    ∀ f₁ f₂ n, n < f₁ → n < f₂ → natCharsAux f₁ n = natCharsAux f₂ n := by
  intro f₁
  induction f₁ with
  | zero => intro f₂ n h1; omega
  | succ f ih =>
      intro f₂ n h1 h2
      cases f₂ with
      | zero => omega
      | succ f2 =>
          rw [natCharsAux, natCharsAux]
          by_cases hn : n < 10
          · rw [if_pos hn, if_pos hn]
          · rw [if_neg hn, if_neg hn, ih f2 (n / 10) (by omega) (by omega)]

theorem natChars_unfold_small (n : Nat) (h : n < 10) : natChars n = [digitChar n] := by
  rw [natChars, natCharsAux, if_pos h]

theorem natChars_unfold_big (n : Nat) (h : 10 ≤ n) :
    natChars n = natChars (n / 10) ++ [digitChar (n % 10)] := by
  rw [natChars, natCharsAux, if_neg (by omega)]
  rw [natCharsAux_irrel n (n / 10 + 1) (n / 10) (by omega) (by omega)]
  rfl

theorem natChars_digits (n : Nat) : ∀ c ∈ natChars n, c.isDigit = true := by
  induction n using Nat.strong_induction_on with
  | _ n ih =>
      by_cases h : n < 10
      · rw [natChars_unfold_small n h]
        intro c hc
        rcases List.mem_singleton.mp hc with rfl
        exact digitChar_isDigit n h
      · rw [natChars_unfold_big n (by omega)]
        intro c hc
        rcases List.mem_append.mp hc with hc | hc
        · exact ih (n / 10) (by omega) c hc
        · rcases List.mem_singleton.mp hc with rfl
          exact digitChar_isDigit _ (by omega)

theorem natChars_head (n : Nat) :
    ∃ d t, natChars n = digitChar d :: t ∧ d < 10 := by
  induction n using Nat.strong_induction_on with
  | _ n ih =>
      by_cases h : n < 10
      · exact ⟨n, [], natChars_unfold_small n h, h⟩
      · obtain ⟨d, t, hdt, hd⟩ := ih (n / 10) (by omega)
        exact ⟨d, t ++ [digitChar (n % 10)],
          by rw [natChars_unfold_big n (by omega), hdt]; rfl, hd⟩

/-- Digit-head when the rest of the input begins. -/
def NoDigitHead (rest : List Char) : Prop :=
  ∀ c t, rest = c :: t → c.isDigit = false

theorem parseDigits_spec :
    ∀ (ds : List Char), (∀ c ∈ ds, c.isDigit = true) →
    ∀ acc rest fuel, ds.length ≤ fuel → NoDigitHead rest →
      parseDigits fuel acc (ds ++ rest) =
        (ds.foldl (fun a c => a * 10 + (c.toNat - 48)) acc, rest) := by
  intro ds
  induction ds with
  | nil =>
      intro _ acc rest fuel _ hrest
      cases rest with
      | nil => cases fuel <;> rfl
      | cons c t =>
          cases fuel with
          | zero => rfl
          | succ f =>
              rw [List.nil_append, parseDigits, hrest c t rfl]
              rfl
  | cons c ds ih =>
      intro hdig acc rest fuel hlen hrest
      cases fuel with
      | zero => simp at hlen
      | succ f =>
          rw [List.cons_append, parseDigits,
            if_pos (hdig c (List.mem_cons_self c ds)),
            ih (fun x hx => hdig x (List.mem_cons_of_mem c hx)) _ rest f
              (by simpa using hlen) hrest]
          rfl

theorem foldl_natChars (n : Nat) :
    (natChars n).foldl (fun a c => a * 10 + (c.toNat - 48)) 0 = n := by
  induction n using Nat.strong_induction_on with
  | _ n ih =>
      by_cases h : n < 10
      · rw [natChars_unfold_small n h]
        simp [digitChar_toNat n h]
      · rw [natChars_unfold_big n (by omega), List.foldl_append, ih (n / 10) (by omega)]
        simp [digitChar_toNat (n % 10) (by omega)]
        omega

/-! ### Roundtrip: strings -/

theorem hexVal_hexDigitCh : ∀ d, d < 16 → hexVal (hexDigitCh d) = some d := by decide

theorem readHex4_hex4 (n : Nat) (h : n < 65536) (rest : List Char) :
    readHex4 (hex4 n ++ rest) = some (n, rest) := by
  rw [hex4]
  show readHex4 (_ :: _ :: _ :: _ :: rest) = _
  rw [readHex4]
  rw [hexVal_hexDigitCh (n / 4096 % 16) (by omega),
    hexVal_hexDigitCh (n / 256 % 16) (by omega),
    hexVal_hexDigitCh (n / 16 % 16) (by omega),
    hexVal_hexDigitCh (n % 16) (by omega)]
  show some (_, rest) = some (n, rest)
  have : ((n / 4096 % 16 * 16 + n / 256 % 16) * 16 + n / 16 % 16) * 16 + n % 16 = n := by
    omega
  rw [this]

theorem char_range (c : Char) :
    c.toNat < 55296 ∨ (57343 < c.toNat ∧ c.toNat < 1114112) := by
  have h := c.valid
  rcases c with ⟨⟨bv⟩, hv⟩
  simp only [UInt32.isValidChar, Nat.isValidChar, UInt32.toNat] at h
  simpa [Char.toNat, UInt32.toNat] using h

theorem char_toNat_lt (c : Char) : c.toNat < 1114112 := by
  rcases char_range c with h | h <;> omega

theorem parseStrBody_encode :
    ∀ (cs : List Char) (rest : List Char) (fuel : Nat), cs.length + 1 ≤ fuel →
      parseStrBody fuel ((cs.map encodeChar).flatten ++ '"' :: rest) = some (cs, rest) := by
  intro cs
  induction cs with
  | nil =>
      intro rest fuel hf
      cases fuel with
      | zero => omega
      | succ f => rfl
  | cons c cs ih =>
      intro rest fuel hf
      cases fuel with
      | zero => simp at hf
      | succ f =>
          have hf' : cs.length + 1 ≤ f := by simpa using hf
          have ihf := ih rest f hf'
          rw [List.map_cons, List.flatten_cons, List.append_assoc]
          rw [encodeChar]
          by_cases h1 : c = '"'
          · subst h1
            rw [if_pos rfl]
            show parseStrBody (f + 1) ('\\' :: '"' :: _) = _
            rw [parseStrBody]
            rw [if_neg (by decide), if_pos rfl, if_pos rfl, List.append_eq, List.nil_append, ihf]
            rfl
          · rw [if_neg h1]
            by_cases h2 : c = '\\'
            · subst h2
              rw [if_pos rfl]
              show parseStrBody (f + 1) ('\\' :: '\\' :: _) = _
              rw [parseStrBody]
              rw [if_neg (by decide), if_pos rfl, if_neg (by decide), if_pos rfl, List.append_eq, List.nil_append, ihf]
              rfl
            · rw [if_neg h2]
              by_cases h3 : c.toNat = 8
              · rw [if_pos h3]
                show parseStrBody (f + 1) ('\\' :: 'b' :: _) = _
                rw [parseStrBody]
                rw [if_neg (by decide), if_pos rfl, if_neg (by decide),
                  if_neg (by decide), if_pos rfl, List.append_eq, List.nil_append, ihf]
                show some (Char.ofNat 8 :: cs, rest) = _
                rw [show Char.ofNat 8 = c from h3 ▸ Char.ofNat_toNat c]
              · rw [if_neg h3]
                by_cases h4 : c.toNat = 12
                · rw [if_pos h4]
                  show parseStrBody (f + 1) ('\\' :: 'f' :: _) = _
                  rw [parseStrBody]
                  rw [if_neg (by decide), if_pos rfl, if_neg (by decide),
                    if_neg (by decide), if_neg (by decide), if_pos rfl, List.append_eq, List.nil_append, ihf]
                  show some (Char.ofNat 12 :: cs, rest) = _
                  rw [show Char.ofNat 12 = c from h4 ▸ Char.ofNat_toNat c]
                · rw [if_neg h4]
                  by_cases h5 : c.toNat = 10
                  · rw [if_pos h5]
                    show parseStrBody (f + 1) ('\\' :: 'n' :: _) = _
                    rw [parseStrBody]
                    rw [if_neg (by decide), if_pos rfl, if_neg (by decide),
                      if_neg (by decide), if_neg (by decide), if_neg (by decide),
                      if_pos rfl, List.append_eq, List.nil_append, ihf]
                    show some (Char.ofNat 10 :: cs, rest) = _
                    rw [show Char.ofNat 10 = c from h5 ▸ Char.ofNat_toNat c]
                  · rw [if_neg h5]
                    by_cases h6 : c.toNat = 13
                    · rw [if_pos h6]
                      show parseStrBody (f + 1) ('\\' :: 'r' :: _) = _
                      rw [parseStrBody]
                      rw [if_neg (by decide), if_pos rfl, if_neg (by decide),
                        if_neg (by decide), if_neg (by decide), if_neg (by decide),
                        if_neg (by decide), if_pos rfl, List.append_eq, List.nil_append, ihf]
                      show some (Char.ofNat 13 :: cs, rest) = _
                      rw [show Char.ofNat 13 = c from h6 ▸ Char.ofNat_toNat c]
                    · rw [if_neg h6]
                      by_cases h7 : c.toNat = 9
                      · rw [if_pos h7]
                        show parseStrBody (f + 1) ('\\' :: 't' :: _) = _
                        rw [parseStrBody]
                        rw [if_neg (by decide), if_pos rfl, if_neg (by decide),
                          if_neg (by decide), if_neg (by decide), if_neg (by decide),
                          if_neg (by decide), if_neg (by decide), if_pos rfl, List.append_eq, List.nil_append, ihf]
                        show some (Char.ofNat 9 :: cs, rest) = _
                        rw [show Char.ofNat 9 = c from h7 ▸ Char.ofNat_toNat c]
                      · rw [if_neg h7]
                        by_cases h8 : 32 ≤ c.toNat ∧ c.toNat ≤ 126
                        · rw [if_pos h8]
                          show parseStrBody (f + 1) (c :: _) = _
                          rw [parseStrBody.eq_def]
                          simp only [if_neg h1, if_neg h2, List.append_eq,
                            List.nil_append]
                          rw [ihf]
                          rfl
                        · rw [if_neg h8]
                          by_cases h9 : c.toNat < 65536
                          · rw [if_pos h9, uEscape]
                            have hns : ¬ (55296 ≤ c.toNat ∧ c.toNat < 56320) := by
                              rcases char_range c with h | h <;> omega
                            show parseStrBody (f + 1)
                              ('\\' :: 'u' :: (hex4 c.toNat ++
                                ((List.map encodeChar cs).flatten ++ '"' :: rest))) = _
                            rw [parseStrBody]
                            rw [if_neg (by decide), if_pos rfl, if_neg (by decide),
                              if_neg (by decide), if_neg (by decide), if_neg (by decide),
                              if_neg (by decide), if_neg (by decide), if_neg (by decide),
                              if_pos rfl]
                            rw [readHex4_hex4 c.toNat h9]
                            show parseUCont (parseStrBody f)
                              (c.toNat, (List.map encodeChar cs).flatten ++ '"' :: rest) = _
                            rw [parseUCont, if_neg hns, ihf]
                            show some (Char.ofNat c.toNat :: cs, rest) = _
                            rw [Char.ofNat_toNat]
                          · rw [if_neg h9, uEscape, uEscape]
                            have hlt := char_toNat_lt c
                            show parseStrBody (f + 1)
                              ('\\' :: 'u' :: (hex4 (55296 + (c.toNat - 65536) / 1024) ++
                                ('\\' :: 'u' :: (hex4 (56320 + (c.toNat - 65536) % 1024) ++
                                  ((List.map encodeChar cs).flatten ++ '"' :: rest))))) = _
                            rw [parseStrBody]
                            rw [if_neg (by decide), if_pos rfl, if_neg (by decide),
                              if_neg (by decide), if_neg (by decide), if_neg (by decide),
                              if_neg (by decide), if_neg (by decide), if_neg (by decide),
                              if_pos rfl]
                            rw [readHex4_hex4 (55296 + (c.toNat - 65536) / 1024) (by omega)]
                            show parseUCont (parseStrBody f)
                              (55296 + (c.toNat - 65536) / 1024,
                               '\\' :: 'u' :: (hex4 (56320 + (c.toNat - 65536) % 1024) ++
                                 ((List.map encodeChar cs).flatten ++ '"' :: rest))) = _
                            rw [parseUCont, if_pos (by constructor <;> omega)]
                            show (if ('\\' : Char) = '\\' ∧ ('u' : Char) = 'u' then
                                match readHex4 (hex4 (56320 + (c.toNat - 65536) % 1024) ++
                                  ((List.map encodeChar cs).flatten ++ '"' :: rest)) with
                                | none => none
                                | some lr => parseUPair (parseStrBody f)
                                    (55296 + (c.toNat - 65536) / 1024) lr
                              else none) = _
                            rw [if_pos (And.intro rfl rfl)]
                            rw [readHex4_hex4 (56320 + (c.toNat - 65536) % 1024) (by omega)]
                            show parseUPair (parseStrBody f)
                              (55296 + (c.toNat - 65536) / 1024)
                              (56320 + (c.toNat - 65536) % 1024,
                               (List.map encodeChar cs).flatten ++ '"' :: rest) = _
                            rw [parseUPair, if_pos (by constructor <;> omega), ihf]
                            show some (Char.ofNat _ :: cs, rest) = _
                            have harg : (55296 + (c.toNat - 65536) / 1024 - 55296) * 1024 +
                                (56320 + (c.toNat - 65536) % 1024 - 56320) + 65536
                                = c.toNat := by omega
                            rw [harg, Char.ofNat_toNat]

/-! ### Roundtrip: values -/

theorem digitChar_ne (d : Nat) (hd : d < 10) (x : Char)
    (hx : x.toNat < 48 ∨ 57 < x.toNat) : ¬ digitChar d = x := by
  intro h
  have h2 := digitChar_toNat d hd
  rw [h] at h2
  omega

theorem encodeChar_length_pos (c : Char) : 1 ≤ (encodeChar c).length := by
  rw [encodeChar]
  split
  · simp
  all_goals split
  all_goals (repeat' split)
  all_goals simp [uEscape, hex4]

theorem flatten_encode_length (cs : List Char) :
    cs.length ≤ ((cs.map encodeChar).flatten).length := by
  induction cs with
  | nil => simp
  | cons c cs ih =>
      rw [List.map_cons, List.flatten_cons, List.length_append, List.length_cons]
      have := encodeChar_length_pos c
      omega

theorem natChars_ne_nil (n : Nat) : natChars n ≠ [] := by
  obtain ⟨d, t, h, _⟩ := natChars_head n
  rw [h]
  exact List.cons_ne_nil _ _

theorem dumpsChars_ne_nil : ∀ v : J, dumpsChars v ≠ [] := by
  intro v
  cases v with
  | null => exact List.cons_ne_nil _ _
  | bool b => cases b <;> exact List.cons_ne_nil _ _
  | int n =>
      rw [dumpsChars, intChars]
      split
      · exact List.cons_ne_nil _ _
      · exact natChars_ne_nil _
  | str s => exact List.cons_ne_nil _ _
  | arr l => exact List.cons_ne_nil _ _
  | obj kvs => exact List.cons_ne_nil _ _

theorem dumpsChars_head_ne (v : J) (h : Char) (t : List Char)
    (he : dumpsChars v = h :: t) : ¬ h = ']' ∧ ¬ h = '}' := by
  cases v with
  | null => rw [dumpsChars] at he; cases he; exact ⟨by decide, by decide⟩
  | bool b =>
      cases b <;> rw [dumpsChars] at he <;> cases he <;> exact ⟨by decide, by decide⟩
  | str s => rw [dumpsChars, encodeStrChars] at he; cases he; exact ⟨by decide, by decide⟩
  | arr l => rw [dumpsChars] at he; cases he; exact ⟨by decide, by decide⟩
  | obj kvs => rw [dumpsChars] at he; cases he; exact ⟨by decide, by decide⟩
  | int n =>
      rw [dumpsChars, intChars] at he
      by_cases hn : n < 0
      · rw [if_pos hn] at he
        cases he
        exact ⟨by decide, by decide⟩
      · rw [if_neg hn] at he
        obtain ⟨d, t2, hnat, hd⟩ := natChars_head n.natAbs
        rw [hnat] at he
        cases he
        exact ⟨digitChar_ne d hd ']' (by decide), digitChar_ne d hd '}' (by decide)⟩

theorem dumpsArrChars_cons (x : J) (xs : List J) :
    ∃ u, dumpsArrChars (x :: xs) = dumpsChars x ++ u := by
  cases xs with
  | nil => exact ⟨[], by rw [dumpsArrChars, List.append_nil]⟩
  | cons w ws => exact ⟨',' :: ' ' :: dumpsArrChars (w :: ws), rfl⟩

theorem strMk_toList (s : String) : String.mk s.toList = s := rfl

mutual
def jfuel : J → Nat
  | .null => 1
  | .bool _ => 1
  | .int _ => 1
  | .str _ => 1
  | .arr l => jfuelArr l + 1
  | .obj kvs => jfuelObj kvs + 1

def jfuelArr : List J → Nat
  | [] => 0
  | v :: vs => max (jfuel v) (jfuelArr vs) + 1

def jfuelObj : List (String × J) → Nat
  | [] => 0
  | (_, v) :: kvs => max (jfuel v) (jfuelObj kvs) + 1
end

mutual
theorem jfuel_le : ∀ v : J, jfuel v ≤ (dumpsChars v).length
  | .null => by rw [jfuel, dumpsChars]; simp
  | .bool b => by cases b <;> rw [jfuel, dumpsChars] <;> simp
  | .int n => by
      rw [jfuel]
      have := dumpsChars_ne_nil (.int n)
      have := List.length_pos.mpr this
      omega
  | .str s => by
      rw [jfuel]
      have := dumpsChars_ne_nil (.str s)
      have := List.length_pos.mpr this
      omega
  | .arr l => by
      rw [jfuel, dumpsChars]
      have := jfuelArr_le l
      simp only [List.length_cons, List.length_append]
      omega
  | .obj kvs => by
      rw [jfuel, dumpsChars]
      have := jfuelObj_le kvs
      simp only [List.length_cons, List.length_append]
      omega

theorem jfuelArr_le : ∀ l : List J, jfuelArr l ≤ (dumpsArrChars l).length + 1
  | [] => by rw [jfuelArr]; omega
  | [v] => by
      rw [jfuelArr, jfuelArr, dumpsArrChars]
      have := jfuel_le v
      simp only [Nat.max_zero]
      omega
  | v :: w :: vs => by
      rw [jfuelArr, dumpsArrChars]
      have h1 := jfuel_le v
      have h2 := jfuelArr_le (w :: vs)
      have h3 := List.length_pos.mpr (dumpsChars_ne_nil v)
      simp only [List.length_append, List.length_cons]
      omega

theorem jfuelObj_le : ∀ kvs : List (String × J), jfuelObj kvs ≤ (dumpsObjChars kvs).length + 1
  | [] => by rw [jfuelObj]; omega
  | [(k, v)] => by
      rw [jfuelObj, jfuelObj, dumpsObjChars]
      have := jfuel_le v
      simp only [Nat.max_zero, List.length_append, List.length_cons]
      omega
  | (k, v) :: kv :: kvs => by
      rw [jfuelObj, dumpsObjChars]
      have h1 := jfuel_le v
      have h2 := jfuelObj_le (kv :: kvs)
      have h3 := List.length_pos.mpr (dumpsChars_ne_nil v)
      simp only [List.length_append, List.length_cons]
      omega
end

/-- The rest of the input does not begin with a separator comma or a
digit (true of `]`, `}` and the empty remainder). -/
def SepSafe (rest : List Char) : Prop :=
  ∀ c t, rest = c :: t → c.isDigit = false ∧ ¬ c = ','

theorem parseElemsCont_stop (re : List Char → Option (List J × List Char))
    (v : J) (c : Char) (t : List Char) (hc : ¬ c = ',') :
    parseElemsCont re (some (v, c :: t)) = some ([v], c :: t) := by
  simp only [parseElemsCont]
  rw [if_neg hc]

theorem parseMemberVal_stop (rm : List Char → Option (List (String × J) × List Char))
    (key : String) (v : J) (c : Char) (t : List Char) (hc : ¬ c = ',') :
    parseMemberVal rm key (some (v, c :: t)) = some ([(key, v)], c :: t) := by
  simp only [parseMemberVal]
  rw [if_neg hc]

mutual
theorem parseJ_dumps : ∀ (v : J) (rest : List Char) (fuel : Nat),
    jfuel v ≤ fuel → NoDigitHead rest →
    parseJ fuel (dumpsChars v ++ rest) = some (v, rest)
  | .null, rest, fuel, hf, _ => by
      cases fuel with
      | zero => rw [jfuel] at hf; omega
      | succ f => rfl
  | .bool true, rest, fuel, hf, _ => by
      cases fuel with
      | zero => rw [jfuel] at hf; omega
      | succ f => rfl
  | .bool false, rest, fuel, hf, _ => by
      cases fuel with
      | zero => rw [jfuel] at hf; omega
      | succ f => rfl
  | .str s, rest, fuel, hf, _ => by
      cases fuel with
      | zero => rw [jfuel] at hf; omega
      | succ f =>
          have hshape : dumpsChars (.str s) ++ rest =
              '"' :: ((s.toList.map encodeChar).flatten ++ '"' :: rest) := by
            rw [dumpsChars, encodeStrChars]
            simp [List.append_assoc]
          rw [hshape]
          show (parseStrBody
              (((s.toList.map encodeChar).flatten ++ '"' :: rest).length + 1)
              ((s.toList.map encodeChar).flatten ++ '"' :: rest)).map
              (fun p => (J.str (String.mk p.1), p.2)) = some (.str s, rest)
          rw [parseStrBody_encode s.toList rest _ (by
            have := flatten_encode_length s.toList
            simp only [List.length_append, List.length_cons]
            omega)]
          show some (J.str (String.mk s.toList), rest) = some (J.str s, rest)
          rw [strMk_toList]
  | .int n, rest, fuel, hf, hrest => by
      cases fuel with
      | zero => rw [jfuel] at hf; omega
      | succ f =>
          rw [dumpsChars, intChars]
          obtain ⟨d, t, hnat, hd⟩ := natChars_head n.natAbs
          have htdig : ∀ c ∈ t, c.isDigit = true := fun c hc =>
            natChars_digits n.natAbs c (hnat ▸ List.mem_cons_of_mem _ hc)
          have hlen : t.length ≤ (t ++ rest).length := by
            simp only [List.length_append]; omega
          have hfold := foldl_natChars n.natAbs
          rw [hnat, List.foldl_cons] at hfold
          rw [show 0 * 10 + ((digitChar d).toNat - 48) = (digitChar d).toNat - 48
            by omega] at hfold
          by_cases hn : n < 0
          · rw [if_pos hn, hnat]
            show parseNegBranch (digitChar d) (t ++ rest) = some (.int n, rest)
            rw [parseNegBranch, if_pos (digitChar_isDigit d hd)]
            rw [parseDigits_spec t htdig ((digitChar d).toNat - 48) rest
              (t ++ rest).length hlen hrest]
            rw [hfold]
            rw [show -((n.natAbs : Int)) = n by omega]
          · rw [if_neg hn, hnat]
            rw [parseJ.eq_def]
            simp only [List.cons_append]
            simp only [if_neg (digitChar_ne d hd 'n' (by decide)),
              if_neg (digitChar_ne d hd 't' (by decide)),
              if_neg (digitChar_ne d hd 'f' (by decide)),
              if_neg (digitChar_ne d hd '"' (by decide)),
              if_neg (digitChar_ne d hd '[' (by decide)),
              if_neg (digitChar_ne d hd '{' (by decide)),
              if_neg (digitChar_ne d hd '-' (by decide)),
              if_pos (digitChar_isDigit d hd)]
            rw [parseDigits_spec t htdig ((digitChar d).toNat - 48) rest
              (t ++ rest).length hlen hrest]
            rw [hfold]
            rw [show ((n.natAbs : Int)) = n by omega]
  | .arr [], rest, fuel, hf, _ => by
      cases fuel with
      | zero => rw [jfuel, jfuelArr] at hf; omega
      | succ f => rfl
  | .arr (x :: xs), rest, fuel, hf, _ => by
      cases fuel with
      | zero => rw [jfuel] at hf; omega
      | succ f =>
          rw [jfuel] at hf
          obtain ⟨u, hu⟩ := dumpsArrChars_cons x xs
          obtain ⟨h0, t0, hx⟩ : ∃ h t, dumpsChars x = h :: t := by
            rcases hdc : dumpsChars x with _ | ⟨h, t⟩
            · exact absurd hdc (dumpsChars_ne_nil x)
            · exact ⟨h, t, rfl⟩
          have hne := (dumpsChars_head_ne x h0 t0 hx).1
          have heq : dumpsArrChars (x :: xs) ++ ']' :: rest
              = h0 :: (t0 ++ u ++ ']' :: rest) := by
            rw [hu, hx]
            simp [List.append_assoc]
          have hshape : dumpsChars (.arr (x :: xs)) ++ rest
              = '[' :: (dumpsArrChars (x :: xs) ++ ']' :: rest) := by
            rw [dumpsChars]
            simp [List.append_assoc]
          rw [hshape, heq]
          show parseArrBranch (parseElems f) h0 (t0 ++ u ++ ']' :: rest)
              = some (.arr (x :: xs), rest)
          rw [parseArrBranch, if_neg hne, ← heq]
          rw [parseElems_dumps (x :: xs) (List.cons_ne_nil x xs) (']' :: rest) f
            (by omega)
            (by intro c t h; injection h with h1 h2; subst h1; exact ⟨by decide, by decide⟩)]
          rfl
  | .obj [], rest, fuel, hf, _ => by
      cases fuel with
      | zero => rw [jfuel, jfuelObj] at hf; omega
      | succ f => rfl
  | .obj ((k, v) :: kvs), rest, fuel, hf, _ => by
      cases fuel with
      | zero => rw [jfuel] at hf; omega
      | succ f =>
          rw [jfuel] at hf
          have hshape : dumpsChars (.obj ((k, v) :: kvs)) ++ rest
              = '{' :: (dumpsObjChars ((k, v) :: kvs) ++ '}' :: rest) := by
            rw [dumpsChars]
            simp [List.append_assoc]
          obtain ⟨u, hu⟩ : ∃ u, dumpsObjChars ((k, v) :: kvs) = encodeStrChars k ++ u := by
            cases kvs with
            | nil => exact ⟨':' :: ' ' :: dumpsChars v, by rw [dumpsObjChars]⟩
            | cons kv2 kvs2 =>
                exact ⟨':' :: ' ' :: dumpsChars v ++ ',' :: ' ' ::
                  dumpsObjChars (kv2 :: kvs2), by rw [dumpsObjChars]; simp [List.append_assoc]⟩
          have heq : dumpsObjChars ((k, v) :: kvs) ++ '}' :: rest
              = '"' :: ((k.toList.map encodeChar).flatten ++ '"' :: (u ++ '}' :: rest)) := by
            rw [hu, encodeStrChars]
            simp [List.append_assoc]
          rw [hshape, heq]
          show parseObjBranch (parseMembers f) '"'
              ((k.toList.map encodeChar).flatten ++ '"' :: (u ++ '}' :: rest))
              = some (.obj ((k, v) :: kvs), rest)
          rw [parseObjBranch, if_neg (by decide : ¬ ('"' : Char) = '}'), ← heq]
          rw [parseMembers_dumps ((k, v) :: kvs) (List.cons_ne_nil _ _) ('}' :: rest) f
            (by omega)
            (by intro c t h; injection h with h1 h2; subst h1; exact ⟨by decide, by decide⟩)]
          rfl

theorem parseElems_dumps : ∀ (l : List J), l ≠ [] → ∀ (rest : List Char) (fuel : Nat),
    jfuelArr l ≤ fuel → SepSafe rest →
    parseElems fuel (dumpsArrChars l ++ rest) = some (l, rest)
  | [], hl, _, _, _, _ => absurd rfl hl
  | [x], _, rest, fuel, hf, hsep => by
      simp only [jfuelArr, Nat.max_zero] at hf
      cases fuel with
      | zero => omega
      | succ f =>
          show parseElemsCont (parseElems f)
            (parseJ f (dumpsArrChars [x] ++ rest)) = some ([x], rest)
          rw [dumpsArrChars]
          rw [parseJ_dumps x rest f (by omega) (fun c t h => (hsep c t h).1)]
          cases rest with
          | nil => rfl
          | cons c t =>
              exact parseElemsCont_stop (parseElems f) x c t (hsep c t rfl).2
  | x :: w :: ws, _, rest, fuel, hf, hsep => by
      rw [jfuelArr] at hf
      have h1 : jfuel x ≤ max (jfuel x) (jfuelArr (w :: ws)) := Nat.le_max_left _ _
      have h2 : jfuelArr (w :: ws) ≤ max (jfuel x) (jfuelArr (w :: ws)) :=
        Nat.le_max_right _ _
      cases fuel with
      | zero => omega
      | succ f =>
          show parseElemsCont (parseElems f)
            (parseJ f (dumpsArrChars (x :: w :: ws) ++ rest)) = some (x :: w :: ws, rest)
          rw [dumpsArrChars]
          have hshape : (dumpsChars x ++ ',' :: ' ' :: dumpsArrChars (w :: ws)) ++ rest
              = dumpsChars x ++ ',' :: ' ' :: (dumpsArrChars (w :: ws) ++ rest) := by
            simp [List.append_assoc]
          rw [hshape]
          rw [parseJ_dumps x (',' :: ' ' :: (dumpsArrChars (w :: ws) ++ rest)) f
            (by omega)
            (by intro c t h; injection h with h1 h2; subst h1; decide)]
          show (match parseElems f (dumpsArrChars (w :: ws) ++ rest) with
                | none => none
                | some (vs, r3) => some (x :: vs, r3)) = some (x :: w :: ws, rest)
          rw [parseElems_dumps (w :: ws) (List.cons_ne_nil _ _) rest f (by omega) hsep]

theorem parseMembers_dumps : ∀ (kvs : List (String × J)), kvs ≠ [] →
    ∀ (rest : List Char) (fuel : Nat),
    jfuelObj kvs ≤ fuel → SepSafe rest →
    parseMembers fuel (dumpsObjChars kvs ++ rest) = some (kvs, rest)
  | [], hl, _, _, _, _ => absurd rfl hl
  | [(k, v)], _, rest, fuel, hf, hsep => by
      simp only [jfuelObj, Nat.max_zero] at hf
      cases fuel with
      | zero => omega
      | succ f =>
          rw [dumpsObjChars]
          have hshape : (encodeStrChars k ++ ':' :: ' ' :: dumpsChars v) ++ rest
              = '"' :: ((k.toList.map encodeChar).flatten ++
                  '"' :: (':' :: ' ' :: (dumpsChars v ++ rest))) := by
            rw [encodeStrChars]
            simp [List.append_assoc]
          rw [hshape]
          show parseMembersCont (parseMembers f) (parseJ f)
            (parseStrBody
              (((k.toList.map encodeChar).flatten ++
                  '"' :: (':' :: ' ' :: (dumpsChars v ++ rest))).length + 1)
              ((k.toList.map encodeChar).flatten ++
                  '"' :: (':' :: ' ' :: (dumpsChars v ++ rest))))
            = some ([(k, v)], rest)
          rw [parseStrBody_encode k.toList _ _ (by
            have := flatten_encode_length k.toList
            simp only [List.length_append, List.length_cons]
            omega)]
          show parseMemberVal (parseMembers f) (String.mk k.toList)
            (parseJ f (dumpsChars v ++ rest)) = some ([(k, v)], rest)
          rw [strMk_toList]
          rw [parseJ_dumps v rest f (by omega) (fun c t h => (hsep c t h).1)]
          cases rest with
          | nil => rfl
          | cons c t =>
              exact parseMemberVal_stop (parseMembers f) k v c t (hsep c t rfl).2
  | (k, v) :: (k2, v2) :: kvs2, _, rest, fuel, hf, hsep => by
      rw [jfuelObj] at hf
      have h1 : jfuel v ≤ max (jfuel v) (jfuelObj ((k2, v2) :: kvs2)) :=
        Nat.le_max_left _ _
      have h2 : jfuelObj ((k2, v2) :: kvs2) ≤ max (jfuel v) (jfuelObj ((k2, v2) :: kvs2)) :=
        Nat.le_max_right _ _
      cases fuel with
      | zero => omega
      | succ f =>
          rw [dumpsObjChars]
          have hshape : (encodeStrChars k ++ ':' :: ' ' :: dumpsChars v ++
                ',' :: ' ' :: dumpsObjChars ((k2, v2) :: kvs2)) ++ rest
              = '"' :: ((k.toList.map encodeChar).flatten ++
                  '"' :: (':' :: ' ' :: (dumpsChars v ++
                    ',' :: ' ' :: (dumpsObjChars ((k2, v2) :: kvs2) ++ rest)))) := by
            rw [encodeStrChars]
            simp [List.append_assoc]
          rw [hshape]
          show parseMembersCont (parseMembers f) (parseJ f)
            (parseStrBody
              (((k.toList.map encodeChar).flatten ++
                  '"' :: (':' :: ' ' :: (dumpsChars v ++
                    ',' :: ' ' :: (dumpsObjChars ((k2, v2) :: kvs2) ++ rest)))).length + 1)
              ((k.toList.map encodeChar).flatten ++
                  '"' :: (':' :: ' ' :: (dumpsChars v ++
                    ',' :: ' ' :: (dumpsObjChars ((k2, v2) :: kvs2) ++ rest)))))
            = some ((k, v) :: (k2, v2) :: kvs2, rest)
          rw [parseStrBody_encode k.toList _ _ (by
            have := flatten_encode_length k.toList
            simp only [List.length_append, List.length_cons]
            omega)]
          show parseMemberVal (parseMembers f) (String.mk k.toList)
            (parseJ f (dumpsChars v ++
              ',' :: ' ' :: (dumpsObjChars ((k2, v2) :: kvs2) ++ rest)))
            = some ((k, v) :: (k2, v2) :: kvs2, rest)
          rw [strMk_toList]
          rw [parseJ_dumps v
            (',' :: ' ' :: (dumpsObjChars ((k2, v2) :: kvs2) ++ rest)) f (by omega)
            (by intro c t h; injection h with h1 h2; subst h1; decide)]
          show (match parseMembers f (dumpsObjChars ((k2, v2) :: kvs2) ++ rest) with
                | none => none
                | some (ms, r7) => some ((k, v) :: ms, r7))
              = some ((k, v) :: (k2, v2) :: kvs2, rest)
          rw [parseMembers_dumps ((k2, v2) :: kvs2) (List.cons_ne_nil _ _) rest f
            (by omega) hsep]
end

/-- `json.loads(json.dumps(v)) == v` on the embedded value universe. -/
theorem loads_dumps (v : J) : loads (dumps v) = some v := by
  rw [loads]
  have hto : (dumps v).toList = dumpsChars v := rfl
  rw [hto]
  have hparse := parseJ_dumps v [] ((dumpsChars v).length + 1)
    (le_trans (jfuel_le v) (by omega))
    (by intro c t h; cases h)
  rw [List.append_nil] at hparse
  rw [hparse]

/-! ### Cache manager: set/get roundtrip (CacheManager.set, CacheManager.get) -/

/-- Python dict item assignment `d[k] = v` on an insertion-ordered dict:
an existing key keeps its position, a new key is appended. -/
def setKey : List (String × J) → String → J → List (String × J)
  | [], k, v => [(k, v)]
  | (k1, v1) :: rest, k, v =>
      if k1 = k then (k, v) :: rest else (k1, v1) :: setKey rest k v

/-- `if isinstance(result, dict) and 'metadata' in result: result['metadata']['cached'] = True`
(cache_manager.py get): non-dicts and dicts without a metadata key pass through
unchanged; a non-dict metadata value makes the item assignment raise TypeError,
which the get handler (RedisError, JSONDecodeError) does not catch. -/
def injectCached : J → Except PyErr J
  | .obj kvs =>
      match kvs.lookup "metadata" with
      | some (.obj m) =>
          .ok (.obj (setKey kvs "metadata" (.obj (setKey m "cached" (.bool true)))))
      | some _ => .error .typeError
      | none => .ok (.obj kvs)
  | v => .ok v

/-- Redis SETEX on the embedded store: replace the entry in place or append it,
recording the serialized string and the ttl. -/
def setStr : List (String × String × Nat) → String → String → Nat →
    List (String × String × Nat)
  | [], k, s, t => [(k, s, t)]
  | (k1, s1, t1) :: r, k, s, t =>
      if k1 = k then (k, s, t) :: r else (k1, s1, t1) :: setStr r k s t

/-- Redis GET on the embedded store (pre-expiry: every stored entry is visible). -/
def lookupStr : List (String × String × Nat) → String → Option String
  | [], _ => none
  | (k1, s1, _) :: r, k => if k1 = k then some s1 else lookupStr r k

/-- `CacheManager.set(key, value, ttl)`: stores `json.dumps(value)` (the
`default=str` fallback never fires on the embedded value universe) and reports
the SETEX success flag. -/
def cacheSet (store : List (String × String × Nat)) (key : String) (v : J)
    (ttl : Nat) : List (String × String × Nat) × Bool :=
  (setStr store key (dumps v) ttl, true)

/-- `CacheManager.get(key)`: a missing key or empty string is falsy and yields
None; an undecodable payload yields None (JSONDecodeError is caught); otherwise
the decoded value passes through the cached-flag injection, whose TypeError
propagates. -/
def cacheGet (store : List (String × String × Nat)) (key : String) :
    Except PyErr (Option J) :=
  match lookupStr store key with
  | none => .ok none
  | some s =>
      if s = "" then .ok none
      else
        match loads s with
        | none => .ok none
        | some r => (injectCached r).map some

theorem lookupStr_setStr (store : List (String × String × Nat)) (k s : String)
    (t : Nat) : lookupStr (setStr store k s t) k = some s := by
  induction store with
  | nil => simp [setStr, lookupStr]
  | cons p r ih =>
      obtain ⟨k1, s1, t1⟩ := p
      by_cases h : k1 = k
      · rw [setStr, if_pos h, lookupStr, if_pos rfl]
      · rw [setStr, if_neg h, lookupStr, if_neg h]
        exact ih

theorem dumps_ne_empty (v : J) : ¬ dumps v = "" := by
  intro h
  have h2 : (dumps v).toList = "".toList := by rw [h]
  exact dumpsChars_ne_nil v h2

/-- C5 (corrected): after `set(k, v, ttl)` the stored serialized value is
`json.dumps(v)` unchanged — no flag is injected on write — and `set` reports
success; a `get(k)` before expiry deserializes exactly `v` and returns
`injectCached v`: `v` itself, with no `cached` flag, when `v` is not a dict or
has no `metadata` key; `v` with `cached=true` set inside its metadata dict when
that key holds a dict; and a propagating TypeError when `metadata` holds a
non-dict value. -/
theorem cache_set_get_roundtrip (store : List (String × String × Nat))
    (k : String) (v : J) (ttl : Nat) :
    (cacheSet store k v ttl).2 = true
    ∧ lookupStr (cacheSet store k v ttl).1 k = some (dumps v)
    ∧ cacheGet (cacheSet store k v ttl).1 k = (injectCached v).map some := by
  refine ⟨rfl, lookupStr_setStr store k (dumps v) ttl, ?_⟩
  show cacheGet (setStr store k (dumps v) ttl) k = (injectCached v).map some
  rw [cacheGet, lookupStr_setStr store k (dumps v) ttl]
  show (if dumps v = "" then Except.ok none
      else match loads (dumps v) with
        | none => Except.ok none
        | some r => (injectCached r).map some) = (injectCached v).map some
  rw [if_neg (dumps_ne_empty v), loads_dumps v]

/-- C5 counterexample to the specified universal `cached=true` injection: a
round-tripped value with no metadata dict — here `{"a": 1}` — is returned
structurally equal to the original with NO injected `cached` flag. -/
theorem cache_get_without_metadata_has_no_cached_flag :
    cacheGet (cacheSet [] "cache:search_user:k0" (J.obj [("a", J.int 1)]) 3600).1
        "cache:search_user:k0"
      = Except.ok (some (J.obj [("a", J.int 1)]))
    ∧ jHasKey (J.obj [("a", J.int 1)]) "cached" = Except.ok false :=
  ⟨rfl, rfl⟩

/-! ### Cache invalidation (CacheManager.invalidate_pattern, invalidate_user_cache) -/

/-- Lowercase hex digit predicate: the characters `0`-`9` and `a`-`f`, the
alphabet of `hashlib.md5(...).hexdigest()`. -/
def isHexLower (c : Char) : Bool :=
  decide ((48 ≤ c.toNat ∧ c.toNat ≤ 57) ∨ (97 ≤ c.toNat ∧ c.toNat ≤ 102))

/-- Redis KEYS glob matching, fuel-bounded: `*` matches any sequence, `?` any
one character, anything else itself. (Bracket classes are omitted: the
invalidation patterns of cache_manager.py never contain them.) -/
def globMatchF : Nat → List Char → List Char → Bool
  | 0, _, _ => false
  | _ + 1, [], s => s.isEmpty
  | fuel + 1, c :: p, s =>
      if c = '*' then
        (globMatchF fuel p s ||
          (match s with
           | [] => false
           | _ :: s' => globMatchF fuel (c :: p) s'))
      else
        match s with
        | [] => false
        | c2 :: s' =>
            if c = '?' then globMatchF fuel p s'
            else decide (c = c2) && globMatchF fuel p s'

/-- Redis KEYS glob matching of a pattern against a key; the fuel
`|pattern| + |key| + 1` dominates the recursion depth. -/
def globMatch (pat s : String) : Bool :=
  globMatchF (pat.toList.length + s.toList.length + 1) pat.toList s.toList

/-- `CacheManager.invalidate_pattern`: `keys(pattern)` then `delete(*keys)` —
the matching entries leave the store and their number is returned. -/
def invalidatePattern (st : List (String × String × Nat)) (pat : String) :
    List (String × String × Nat) × Nat :=
  (st.filter (fun e => !(globMatch pat e.1)),
   (st.filter (fun e => globMatch pat e.1)).length)

/-- `CacheManager.invalidate_user_cache(username)`: invalidates the three
patterns `cache:following_user:*{username}*`, `cache:followers_user:*{username}*`,
`cache:timeline_tweet:*{username}*` and sums the deletion counts. -/
def invalidateUserCache (st : List (String × String × Nat)) (username : String) :
    List (String × String × Nat) × Nat :=
  let r1 := invalidatePattern st ("cache:following_user:*" ++ username ++ "*")
  let r2 := invalidatePattern r1.1 ("cache:followers_user:*" ++ username ++ "*")
  let r3 := invalidatePattern r2.1 ("cache:timeline_tweet:*" ++ username ++ "*")
  (r3.1, r1.2 + r2.2 + r3.2)

theorem hexDigitCh_hex (n : Nat) (h : n < 16) : isHexLower (hexDigitCh n) = true := by
  interval_cases n <;> decide

theorem md5Hex_hex (msg : List Nat) :
    ∀ c ∈ (md5Hex msg).toList, isHexLower c = true := by
  intro c hc
  rcases hA : md5Blocks (md5Pad msg).length
      (0x67452301, 0xefcdab89, 0x98badcfe, 0x10325476) (md5Pad msg)
    with ⟨a, b, c4, d⟩
  have hc2 : c ∈ ((toLE 4 a ++ toLE 4 b ++ toLE 4 c4 ++ toLE 4 d).map byteHex).flatten := by
    rw [md5Hex, hA] at hc
    exact hc
  obtain ⟨lc, hlc, hcl⟩ := List.mem_flatten.mp hc2
  obtain ⟨b0, _, rfl⟩ := List.mem_map.mp hlc
  have : c = hexDigitCh (b0 / 16 % 16) ∨ c = hexDigitCh (b0 % 16) := by
    simpa [byteHex] using hcl
  rcases this with rfl | rfl <;> exact hexDigitCh_hex _ (Nat.mod_lt _ (by omega))

theorem md5HexStr_hex (s : String) :
    ∀ c ∈ (md5HexStr s).toList, isHexLower c = true :=
  fun c hc => md5Hex_hex (strBytes s) c hc

theorem glob_lit_nil (fuel : Nat) (c : Char) (p : List Char) (h1 : ¬ c = '*') :
    globMatchF fuel (c :: p) [] = false := by
  cases fuel with
  | zero => rfl
  | succ f => rw [globMatchF, if_neg h1]

theorem globMatchF_lit_mismatch (fuel : Nat) (c : Char) (p : List Char)
    (c2 : Char) (s' : List Char) (h1 : ¬ c = '*') (h2 : ¬ c = '?')
    (h3 : ¬ c = c2) : globMatchF fuel (c :: p) (c2 :: s') = false := by
  cases fuel with
  | zero => rfl
  | succ f =>
      rw [globMatchF, if_neg h1]
      show (if c = '?' then globMatchF f p s'
          else decide (c = c2) && globMatchF f p s') = false
      rw [if_neg h2]
      simp [h3]

theorem globMatchF_consume_lit (L : List Char) (fuel : Nat) (p s : List Char)
    (hL : ∀ c ∈ L, ¬ c = '*' ∧ ¬ c = '?') :
    globMatchF (L.length + fuel) (L ++ p) (L ++ s) = globMatchF fuel p s := by
  induction L with
  | nil => simp
  | cons c L' ih =>
      obtain ⟨h1, h2⟩ := hL c (List.mem_cons_self c L')
      rw [show (c :: L').length + fuel = (L'.length + fuel) + 1 from by
        rw [List.length_cons]; omega]
      rw [List.cons_append, List.cons_append]
      rw [globMatchF, if_neg h1]
      show (if c = '?' then globMatchF (L'.length + fuel) (L' ++ p) (L' ++ s)
          else decide (c = c) && globMatchF (L'.length + fuel) (L' ++ p) (L' ++ s))
          = globMatchF fuel p s
      rw [if_neg h2, ih (fun c3 h3 => hL c3 (List.mem_cons_of_mem _ h3))]
      simp

theorem globMatchF_l_hex (fuel : Nat) (p : List Char) (h : List Char)
    (hh : ∀ c ∈ h, isHexLower c = true) :
    globMatchF fuel ('l' :: p) h = false := by
  cases h with
  | nil => exact glob_lit_nil fuel 'l' p (by decide)
  | cons c2 h' =>
      have hc2 := hh c2 (List.mem_cons_self c2 h')
      refine globMatchF_lit_mismatch fuel 'l' p c2 h' (by decide) (by decide) ?_
      intro he
      rw [← he] at hc2
      exact absurd hc2 (by decide)

theorem glob_alice_lit_hex (fuel : Nat) (h : List Char)
    (hh : ∀ c ∈ h, isHexLower c = true) :
    globMatchF fuel ('a' :: 'l' :: 'i' :: 'c' :: 'e' :: '*' :: []) h = false := by
  cases h with
  | nil => exact glob_lit_nil fuel 'a' _ (by decide)
  | cons c2 h' =>
      by_cases he : 'a' = c2
      · cases fuel with
        | zero => rfl
        | succ f =>
            rw [globMatchF, if_neg (by decide : ¬ ('a' : Char) = '*')]
            show (if ('a' : Char) = '?' then
                  globMatchF f ('l' :: 'i' :: 'c' :: 'e' :: '*' :: []) h'
                else decide ('a' = c2) &&
                  globMatchF f ('l' :: 'i' :: 'c' :: 'e' :: '*' :: []) h') = false
            rw [if_neg (by decide : ¬ ('a' : Char) = '?')]
            rw [globMatchF_l_hex f _ h' (fun c hc => hh c (List.mem_cons_of_mem _ hc))]
            simp
      · exact globMatchF_lit_mismatch fuel 'a' _ c2 h' (by decide) (by decide) he

theorem glob_alicestar_hex (fuel : Nat) (h : List Char)
    (hh : ∀ c ∈ h, isHexLower c = true) :
    globMatchF fuel ('*' :: 'a' :: 'l' :: 'i' :: 'c' :: 'e' :: '*' :: []) h = false := by
  induction fuel generalizing h with
  | zero => rfl
  | succ f ih =>
      cases h with
      | nil =>
          rw [globMatchF, if_pos rfl]
          show (globMatchF f ('a' :: 'l' :: 'i' :: 'c' :: 'e' :: '*' :: []) [] || false)
              = false
          rw [glob_alice_lit_hex f [] (by intro c hc; cases hc)]
          rfl
      | cons c2 h' =>
          rw [globMatchF, if_pos rfl]
          show (globMatchF f ('a' :: 'l' :: 'i' :: 'c' :: 'e' :: '*' :: []) (c2 :: h')
              || globMatchF f ('*' :: 'a' :: 'l' :: 'i' :: 'c' :: 'e' :: '*' :: []) h')
              = false
          rw [glob_alice_lit_hex f (c2 :: h') hh,
            ih h' (fun c hc => hh c (List.mem_cons_of_mem _ hc))]
          rfl

theorem globMatch_lit_mismatch (P K : String) (L prest krest : List Char)
    (c1 c2 : Char) (hP : P.toList = L ++ c1 :: prest) (hK : K.toList = L ++ c2 :: krest)
    (hL : ∀ c ∈ L, ¬ c = '*' ∧ ¬ c = '?')
    (h1 : ¬ c1 = '*') (h2 : ¬ c1 = '?') (h3 : ¬ c1 = c2) :
    globMatch P K = false := by
  rw [globMatch, hP, hK]
  rw [show (L ++ c1 :: prest).length + (L ++ c2 :: krest).length + 1
      = L.length + (L.length + prest.length + krest.length + 3) from by
    simp [List.length_append]
    omega]
  rw [globMatchF_consume_lit L _ _ _ hL]
  exact globMatchF_lit_mismatch _ c1 prest c2 krest h1 h2 h3

theorem globMatch_star_alice_hex (P K : String) (L d : List Char)
    (hP : P.toList = L ++ '*' :: 'a' :: 'l' :: 'i' :: 'c' :: 'e' :: '*' :: [])
    (hK : K.toList = L ++ d)
    (hL : ∀ c ∈ L, ¬ c = '*' ∧ ¬ c = '?')
    (hd : ∀ c ∈ d, isHexLower c = true) :
    globMatch P K = false := by
  rw [globMatch, hP, hK]
  rw [show (L ++ '*' :: 'a' :: 'l' :: 'i' :: 'c' :: 'e' :: '*' :: []).length
        + (L ++ d).length + 1
      = L.length + (L.length + d.length + 8) from by
    simp [List.length_append]
    omega]
  rw [globMatchF_consume_lit L _ _ _ hL]
  exact glob_alicestar_hex _ d hd

theorem invalidatePattern_no_match (st : List (String × String × Nat)) (pat : String)
    (h : ∀ e ∈ st, globMatch pat e.1 = false) :
    invalidatePattern st pat = (st, 0) := by
  rw [invalidatePattern]
  have h1 : st.filter (fun e => !(globMatch pat e.1)) = st :=
    List.filter_eq_self.mpr (fun a ha => by rw [h a ha]; rfl)
  have h2 : st.filter (fun e => globMatch pat e.1) = [] := by
    rw [List.filter_eq_nil_iff]
    intro a ha
    simp [h a ha]
  rw [h1, h2]
  rfl

/-- C6: `invalidate_user_cache(username)` cannot delete anything the scrapers
ever stored: stored keys are `cache:<op>:<md5 hexdigest>` and a hex digest is
drawn from `0-9a-f`, so the glob `cache:following_user:*alice*` (and likewise
the followers and timeline patterns) matches no generated key — for a store
populated only with generated keys, invalidation for user `alice` deletes
nothing and reports 0 deletions, contradicting the specified best-effort bulk
deletion of that user's entries. -/
theorem invalidate_user_cache_deletes_nothing (store : List (String × String × Nat))
    (hstore : ∀ e ∈ store, ∃ op params,
      (op = "following_user" ∨ op = "followers_user" ∨ op = "timeline_tweet")
      ∧ e.1 = generateCacheKey op params) :
    invalidateUserCache store "alice" = (store, 0) := by
  have hno1 : ∀ e ∈ store,
      globMatch ("cache:following_user:*" ++ "alice" ++ "*") e.1 = false := by
    intro e he
    obtain ⟨op, q, hop, hkey⟩ := hstore e he
    have hkey2 : e.1 = "cache:" ++ op ++ ":" ++ md5HexStr (dumps (sortJ (.obj q))) := hkey
    generalize hD : md5HexStr (dumps (sortJ (.obj q))) = D at hkey2
    have hhex : ∀ c ∈ D.toList, isHexLower c = true := by
      rw [← hD]
      exact md5HexStr_hex _
    rw [hkey2]
    rcases hop with rfl | rfl | rfl
    · exact globMatch_star_alice_hex _ _ "cache:following_user:".toList D.toList
        rfl rfl (by decide) hhex
    · exact globMatch_lit_mismatch _ _ "cache:follow".toList
        "ng_user:*alice*".toList
        ("rs_user:".toList ++ D.toList)
        'i' 'e' rfl rfl (by decide) (by decide) (by decide) (by decide)
    · exact globMatch_lit_mismatch _ _ "cache:".toList
        "ollowing_user:*alice*".toList
        ("imeline_tweet:".toList ++ D.toList)
        'f' 't' rfl rfl (by decide) (by decide) (by decide) (by decide)
  have hno2 : ∀ e ∈ store,
      globMatch ("cache:followers_user:*" ++ "alice" ++ "*") e.1 = false := by
    intro e he
    obtain ⟨op, q, hop, hkey⟩ := hstore e he
    have hkey2 : e.1 = "cache:" ++ op ++ ":" ++ md5HexStr (dumps (sortJ (.obj q))) := hkey
    generalize hD : md5HexStr (dumps (sortJ (.obj q))) = D at hkey2
    have hhex : ∀ c ∈ D.toList, isHexLower c = true := by
      rw [← hD]
      exact md5HexStr_hex _
    rw [hkey2]
    rcases hop with rfl | rfl | rfl
    · exact globMatch_lit_mismatch _ _ "cache:follow".toList
        "rs_user:*alice*".toList
        ("ng_user:".toList ++ D.toList)
        'e' 'i' rfl rfl (by decide) (by decide) (by decide) (by decide)
    · exact globMatch_star_alice_hex _ _ "cache:followers_user:".toList D.toList
        rfl rfl (by decide) hhex
    · exact globMatch_lit_mismatch _ _ "cache:".toList
        "ollowers_user:*alice*".toList
        ("imeline_tweet:".toList ++ D.toList)
        'f' 't' rfl rfl (by decide) (by decide) (by decide) (by decide)
  have hno3 : ∀ e ∈ store,
      globMatch ("cache:timeline_tweet:*" ++ "alice" ++ "*") e.1 = false := by
    intro e he
    obtain ⟨op, q, hop, hkey⟩ := hstore e he
    have hkey2 : e.1 = "cache:" ++ op ++ ":" ++ md5HexStr (dumps (sortJ (.obj q))) := hkey
    generalize hD : md5HexStr (dumps (sortJ (.obj q))) = D at hkey2
    have hhex : ∀ c ∈ D.toList, isHexLower c = true := by
      rw [← hD]
      exact md5HexStr_hex _
    rw [hkey2]
    rcases hop with rfl | rfl | rfl
    · exact globMatch_lit_mismatch _ _ "cache:".toList
        "imeline_tweet:*alice*".toList
        ("ollowing_user:".toList ++ D.toList)
        't' 'f' rfl rfl (by decide) (by decide) (by decide) (by decide)
    · exact globMatch_lit_mismatch _ _ "cache:".toList
        "imeline_tweet:*alice*".toList
        ("ollowers_user:".toList ++ D.toList)
        't' 'f' rfl rfl (by decide) (by decide) (by decide) (by decide)
    · exact globMatch_star_alice_hex _ _ "cache:timeline_tweet:".toList D.toList
        rfl rfl (by decide) hhex
  have e1 := invalidatePattern_no_match store _ hno1
  have e2 := invalidatePattern_no_match store _ hno2
  have e3 := invalidatePattern_no_match store _ hno3
  simp only [invalidateUserCache, e1, e2, e3, Nat.add_zero]

/-- A store holding one entry cached by the following_user operation for user
alice survives `invalidate_user_cache("alice")` untouched, with 0 deletions
reported. -/
theorem invalidate_user_cache_deletes_nothing_witness :
    invalidateUserCache
      [(generateCacheKey "following_user" [("username", J.str "alice")], "v", 3600)]
      "alice"
      = ([(generateCacheKey "following_user" [("username", J.str "alice")], "v", 3600)], 0) :=
  invalidate_user_cache_deletes_nothing _ (by
    intro e he
    rw [List.mem_singleton] at he
    subst he
    exact ⟨"following_user", [("username", J.str "alice")], Or.inl rfl, rfl⟩)
